import Mathlib

/-!
PNG2 format: accumulate / flush protocol and table geometry.

A shallow embedding of `PNG2Format::WriteChemObject` and
`PNG2Format::WriteMolecule` (src/formats/png2format.cpp), followed by theorems
about the batch protocol and the table layout.

Conventions of the embedding.

* C `int` values are `Int`s kept in range by `wrap32`; the comparison of an
  `int` with `vector::size()` converts the `int` to a 64-bit `size_t`
  (`toSizeT`).  Both are irreducible, so that terms with a variable in them are
  never unfolded down to the arithmetic of large literals; closed terms are
  evaluated with `with_unfolding_all decide`.
* The member `_cairopainter` is the list of calls made on it, oldest first.
* The global `obErrorLog` is the list of errors thrown by this format.
* `OBConversion` is the part of the streaming controller this format touches:
  its output options, the output index, the last-record flag and the current
  object.
* Collaborators that are not part of this file (`gen2D`,
  `AliasData::RevertToAliasForm`, `OBMoleculeFormat::DoOutputOptions`) are
  fields of `Env`.
-/

namespace PNG2

/-! ## Machine integers -/

/-- Two's-complement wrap of an integer into the range of a 32-bit C `int`: the
value `x + 2^31` reduced modulo `2^32`, less `2^31`. -/
@[irreducible]
def wrap32 (x : Int) : Int := (2147483648 + x) % 4294967296 - 2147483648

/-- Conversion of a C `int` to `size_t` (64-bit unsigned). -/
@[irreducible]
def toSizeT (x : Int) : Int := x % 18446744073709551616

/-- Saturation of an integer into the range of a 64-bit `long`, as `strtol` does. -/
def clampLong (x : Int) : Int := max (-9223372036854775808) (min 9223372036854775807 x)

/-! ## `atoi` -/

/-- C `isspace` in the "C" locale: space, and the control characters 9 to 13. -/
def isSpaceChar (c : Char) : Bool := c.toNat == 32 || (9 ≤ c.toNat && c.toNat ≤ 13)

/-- Value of the longest prefix of decimal digits, continuing from `acc`. -/
def digitsValue : List Char → Nat → Nat
  | [], acc => acc
  | c :: cs, acc =>
    if 48 ≤ c.toNat ∧ c.toNat ≤ 57 then digitsValue cs (acc * 10 + (c.toNat - 48)) else acc

/-- C `atoi`: skip white space, read an optional sign and the decimal digits that
follow; text without digits gives 0.  Values outside `int` are taken as
`(int) strtol(s, NULL, 10)` gives them. -/
def atoi (s : String) : Int :=
  match s.toList.dropWhile isSpaceChar with
  | [] => 0
  | c :: cs =>
    if c.toNat = 45 then wrap32 (clampLong (-(digitsValue cs 0 : Int)))
    else if c.toNat = 43 then wrap32 (clampLong (digitsValue cs 0))
    else wrap32 (clampLong (digitsValue (c :: cs) 0))

/-! ## `(int)ceil(sqrt((double)nmols))` -/

/-- IEEE-754 binary64 square root of a positive integer `n < 2^53` (such an
integer converts to `double` exactly): the real square root rounded to the
nearest number with a 53-bit significand.  With `2^e ≤ √n < 2^(e+1)` the result
is `m / 2^(52-e)` for the integer `m` nearest to `√n * 2^(52-e)`; a tie cannot
occur. -/
def sqrtDouble (n : Nat) : ℚ :=
  let k := 52 - Nat.log 4 n
  let scaled := n * 4 ^ k
  let s := Nat.sqrt scaled
  let m := if s * s + s < scaled then s + 1 else s
  (m : ℚ) / 2 ^ k

/-- The expression `(int)ceil(sqrt((double)nmols))`.  For a negative `nmols`
the square root is a NaN, whose conversion to `int` gives `INT_MIN` on x86-64. -/
def ceilSqrt (nmols : Int) : Int :=
  if nmols < 0 then -2147483648
  else if nmols = 0 then 0
  else wrap32 ⌈sqrtDouble nmols.toNat⌉

/-! ## Data model -/

/-- The part of an `OBMol` that `WriteMolecule` reads. -/
structure OBMol where
  /-- Value of `GetTitle()`. -/
  title : String
  /-- Value of `NumAtoms()`. -/
  numAtoms : Nat
  /-- Value of `Has2D()`. -/
  has2D : Bool
  /-- Value of `Has2D(true)`. -/
  has2DNot3D : Bool
  deriving DecidableEq, Repr

/-- An object handed over by the controller: a molecule, or anything for which
`dynamic_cast<OBMol*>` gives `NULL`. -/
inductive OBBase where
  | mol (m : OBMol)
  | other (title : String)
  deriving DecidableEq, Repr

/-- Option flags of `OBDepict`. -/
inductive DepictOption where
  | drawTermC
  | drawAllC
  | bwAtoms
  | internalColor
  | asymmetricDoubleBond
  deriving DecidableEq, Repr

/-- One call on the `CairoPainter` member; `DrawMolecule` is the call of an
`OBDepict` built on the painter, with the option flags and the alias mode it was
given. -/
inductive PainterCall where
  | SetTitle (text : String)
  | SetWidth (width : Int)
  | SetHeight (height : Int)
  | SetTableSize (nrows ncols : Int)
  | SetIndex (index : Int)
  | SetPenWidth (width : Int)
  | DrawMolecule (workingmol : OBMol) (options : List DepictOption) (aliasMode : Bool)
  | WriteImage
  deriving DecidableEq, Repr

/-- One `obErrorLog.ThrowError` of this format (all at level `obError`). -/
structure ErrorEntry where
  method : String
  message : String
  onceOnly : Bool
  deriving DecidableEq, Repr

/-- The streaming controller as this format sees it. -/
structure OBConversion where
  /-- Output options, most recent first: name and text. -/
  options : List (String × String)
  /-- Value of `GetOutputIndex()`. -/
  outputIndex : Int
  /-- Value of `IsLast()`. -/
  last : Bool
  /-- Value of `GetChemObject()`. -/
  chemObject : OBBase

/-- The call `pConv->IsOption(name)`: the text of the option, `none` for `NULL`. -/
def OBConversion.IsOption (pConv : OBConversion) (name : String) : Option String :=
  pConv.options.lookup name

/-- The call `pConv->AddOption(name)`: the option is set, with an empty text. -/
def OBConversion.AddOption (pConv : OBConversion) (name : String) : OBConversion :=
  { pConv with options := (name, "") :: pConv.options }

/-- Collaborators defined outside this file. -/
structure Env where
  /-- The operation `OBOp::FindType("gen2D")` (`none` when it is not found) and
  what its `Do` returns and leaves in the molecule. -/
  gen2D : Option (OBMol → Bool × OBMol)
  /-- The effect of `AliasData::RevertToAliasForm` on the working molecule. -/
  revertToAliasForm : OBMol → OBMol
  /-- The effect of `OBMoleculeFormat::DoOutputOptions` on the submitted object. -/
  doOutputOptions : OBBase → OBConversion → OBBase

/-- The fields of a `PNG2Format`, with the error log. -/
structure PNG2Format where
  ncols : Int
  nrows : Int
  nmax : Int
  objects : List OBBase
  cairopainter : List PainterCall
  errorLog : List ErrorEntry

/-- State built by the constructor `PNG2Format()`. -/
def PNG2Format.init : PNG2Format :=
  { ncols := 0, nrows := 0, nmax := 0, objects := [], cairopainter := [], errorLog := [] }

/-! ## `WriteMolecule` -/

/-- Lines 245-252: a molecule without 2D coordinates and with more than one
atom is refused. -/
def check2D (workingmol : OBMol) : Except ErrorEntry OBMol :=
  if !workingmol.has2D && decide (workingmol.numAtoms > 1) then
    .error ⟨"PNG2Format",
      "Molecule " ++ workingmol.title ++ " needs 2D coordinates to display in PNG2format", false⟩
  else .ok workingmol

/-- Lines 229-252: coordinate generation on the working copy. -/
def generateCoords (env : Env) (workingmol : OBMol) : Except ErrorEntry OBMol :=
  if !workingmol.has2DNot3D then
    match env.gen2D with
    | none => .error ⟨"PNG2Format", "gen2D not found", true⟩
    | some pOp =>
      if !(pOp workingmol).1 then
        .error ⟨"PNG2Format",
          (pOp workingmol).2.title ++ "- Coordinate generation unsuccessful", false⟩
      else check2D (pOp workingmol).2
  else check2D workingmol

/-- Option flags given to the depictor, lines 279-300. -/
def depictOptions (pConv : OBConversion) : List DepictOption :=
  (if (pConv.IsOption "C").isNone then [DepictOption.drawTermC] else []) ++
  (if (pConv.IsOption "a").isSome then [DepictOption.drawAllC] else []) ++
  (if (pConv.IsOption "u").isSome then [DepictOption.bwAtoms] else []) ++
  (if (pConv.IsOption "U").isNone then [DepictOption.internalColor] else []) ++
  (if (pConv.IsOption "s").isSome then [DepictOption.asymmetricDoubleBond] else [])

/-- Lines 254-307: the calls made on the painter for one molecule whose
coordinates are settled, in order. -/
def paintCalls (nrows ncols : Int) (pmol workingmol : OBMol) (env : Env)
    (pConv : OBConversion) : List PainterCall :=
  let size : Int := match pConv.IsOption "p" with
    | some pp => atoi pp
    | none => 300
  let width : Int := match pConv.IsOption "w" with
    | some pp => atoi pp
    | none => size
  let height : Int := match pConv.IsOption "h" with
    | some pp => atoi pp
    | none => size
  let text : String := if (pConv.IsOption "d").isNone then pmol.title else pmol.title
  let aliasMode : Bool := (pConv.IsOption "A").isSome
  let drawn : OBMol := if aliasMode then env.revertToAliasForm workingmol else workingmol
  [PainterCall.SetTitle text] ++
  (if pConv.outputIndex = 1 then
    [PainterCall.SetWidth width, PainterCall.SetHeight height,
      PainterCall.SetTableSize nrows ncols]
   else []) ++
  [PainterCall.SetIndex pConv.outputIndex] ++
  [PainterCall.SetPenWidth (if (pConv.IsOption "t").isSome then 4 else 1)] ++
  [PainterCall.DrawMolecule drawn (depictOptions pConv) aliasMode] ++
  (if pConv.last then [PainterCall.WriteImage] else [])

/-- The method `PNG2Format::WriteMolecule`: its return value, and the format and
the controller as it leaves them. -/
def WriteMolecule (env : Env) (self : PNG2Format) (pOb : OBBase) (pConv : OBConversion) :
    Bool × PNG2Format × OBConversion :=
  match pOb with
  | .other _ => (false, self, pConv)
  | .mol pmol =>
    let direct : Bool := (pConv.IsOption "pngwritechemobject").isNone
    let self1 : PNG2Format :=
      if direct then { self with nmax := 1, nrows := 1, ncols := 1 } else self
    let pConv1 : OBConversion :=
      if direct then { pConv with last := true, outputIndex := 1 } else pConv
    match generateCoords env pmol with
    | .error e => (false, { self1 with errorLog := self1.errorLog ++ [e] }, pConv1)
    | .ok workingmol =>
      (true,
        { self1 with
          cairopainter :=
            self1.cairopainter ++ paintCalls self1.nrows self1.ncols pmol workingmol env pConv1 },
        pConv1)

/-! ## `WriteChemObject` -/

/-- Lines 133-149: the start of a batch, taken when the output index is at most 1. -/
def startBatch (self : PNG2Format) (pConv : OBConversion) : PNG2Format × OBConversion :=
  let self0 : PNG2Format := { self with objects := [], nmax := 0 }
  let pConv1 := pConv.AddOption "pngwritechemobject"
  let pc := pConv1.IsOption "c"
  let pr := pConv1.IsOption "r"
  let self1 : PNG2Format := match pr with
    | some r => { self0 with nrows := atoi r }
    | none => self0
  let self2 : PNG2Format := match pc with
    | some c => { self1 with ncols := atoi c }
    | none => self1
  let self3 : PNG2Format :=
    if pr.isSome && pc.isSome then { self2 with nmax := wrap32 (self2.nrows * self2.ncols) }
    else self2
  let self4 : PNG2Format := match pConv1.IsOption "N" with
    | some pmax => { self3 with nmax := atoi pmax }
    | none => self3
  (self4, pConv1)

/-- Lines 129-155: the batch is started when the output index is at most 1, and
the object is stored. -/
def accumulate (env : Env) (self : PNG2Format) (pConv : OBConversion) :
    PNG2Format × OBConversion :=
  let pOb := pConv.chemObject
  let st := if pConv.outputIndex ≤ 1 then startBatch self pConv else (self, pConv)
  ({ st.1 with objects := st.1.objects ++ [env.doOutputOptions pOb st.2] }, st.2)

/-- Line 159: `_nmax && (_objects.size()==_nmax)`. -/
def nomore (self : PNG2Format) : Bool :=
  decide (self.nmax ≠ 0) && decide ((self.objects.length : Int) = toSizeT self.nmax)

/-- Lines 164-179: the table properties, from the number of molecules and the
values of `_nrows` and `_ncols`; the result is the new `(_nrows, _ncols)`. -/
def resolveTable (nmols nrows ncols : Int) : Int × Int :=
  if !(decide (nmols = 0) ||
       (decide (nrows ≠ 0) && decide (ncols ≠ 0)) ||
       ((decide (nrows = 0) && decide (ncols = 0)) && decide (nmols = 1))) then
    let ncols1 : Int := if nrows = 0 ∧ ncols = 0 then ceilSqrt nmols else ncols
    if nrows ≠ 0 then (nrows, wrap32 (Int.tdiv (wrap32 (nmols - 1)) nrows + 1))
    else if ncols1 ≠ 0 then (wrap32 (Int.tdiv (wrap32 (nmols - 1)) ncols1 + 1), ncols1)
    else (nrows, ncols1)
  else (nrows, ncols)

/-- Lines 182-193: the loop over the stored objects.  `size` is
`_objects.size()`, `n` the counter before the iteration; the loop stops at the
first `WriteMolecule` that returns false. -/
def writeAll (env : Env) (size : Nat) :
    List OBBase → Int → PNG2Format → OBConversion → Bool × PNG2Format × OBConversion
  | [], _, self, pConv => (true, self, pConv)
  | pOb :: rest, n, self, pConv =>
    let n1 := wrap32 (n + 1)
    let pConv1 : OBConversion :=
      { pConv with outputIndex := n1, last := decide (toSizeT n1 = (size : Int)) }
    let r := WriteMolecule env self pOb pConv1
    if r.1 then writeAll env size rest n1 r.2.1 r.2.2 else (false, r.2.1, r.2.2)

/-- Lines 162-179 at the flush: `nmols` is `_objects.size()` converted to `int`,
and the table is resolved from the stored `_nrows` and `_ncols`. -/
def tableAtFlush (self : PNG2Format) : Int × Int :=
  resolveTable (wrap32 self.objects.length) self.nrows self.ncols

/-- Lines 162-200: the table is dimensioned, every stored object is written,
and the batch state is cleared. -/
def flush (env : Env) (self : PNG2Format) (pConv : OBConversion) :
    Bool × PNG2Format × OBConversion :=
  let grid := tableAtFlush self
  let self1 : PNG2Format := { self with nrows := grid.1, ncols := grid.2 }
  let r := writeAll env self1.objects.length self1.objects 0 self1 pConv
  (r.1, { r.2.1 with objects := [], nmax := 0, ncols := 0, nrows := 0 }, r.2.2)

/-- The method `PNG2Format::WriteChemObject`: its return value, and the format
and the controller as it leaves them. -/
def WriteChemObject (env : Env) (self : PNG2Format) (pConv : OBConversion) :
    Bool × PNG2Format × OBConversion :=
  let st := accumulate env self pConv
  let nm := nomore st.1
  let r := if st.2.last || nm then flush env st.1 st.2 else (true, st.1, st.2)
  let pConv2 : OBConversion :=
    if !r.1 || nm then { r.2.2 with outputIndex := wrap32 (r.2.2.outputIndex + 1) } else r.2.2
  (r.1 && !nm, r.2.1, pConv2)

/-! ## Definitions used to state the properties -/

/-- Exact integer ceiling of the square root of a natural number. -/
def ceilSqrtNat (n : Nat) : Nat :=
  if Nat.sqrt n * Nat.sqrt n = n then Nat.sqrt n else Nat.sqrt n + 1

/-- A stored object renders: it is a molecule and its coordinate stage succeeds. -/
def renders (env : Env) : OBBase → Bool
  | .mol pmol =>
    match generateCoords env pmol with
    | .ok _ => true
    | .error _ => false
  | .other _ => false

/-- The painter calls of one `WriteMolecule` that succeeds on the stored object. -/
def objectCalls (env : Env) (nrows ncols : Int) (pConv : OBConversion) :
    OBBase → List PainterCall
  | .mol pmol =>
    match generateCoords env pmol with
    | .ok workingmol => paintCalls nrows ncols pmol workingmol env pConv
    | .error _ => []
  | .other _ => []

/-- The painter calls of the loop over the stored objects, for a table of
`nrows` by `ncols` and a batch of `size` objects: the objects are written with
the indices `n + 1`, `n + 2`, ... and the last flag set at index `size`, up to
the first object that does not render. -/
def batchCalls (env : Env) (nrows ncols : Int) (pConv : OBConversion) (size : Nat) :
    List OBBase → Int → List PainterCall
  | [], _ => []
  | pOb :: rest, n =>
    if renders env pOb then
      objectCalls env nrows ncols
        { pConv with outputIndex := n + 1, last := decide (n + 1 = (size : Int)) } pOb ++
      batchCalls env nrows ncols pConv size rest (n + 1)
    else []

/-- The `DrawMolecule` call for a stored object that renders: the working copy
after coordinate generation, in alias form when option `A` is set. -/
def drawCallOf (env : Env) (pConv : OBConversion) : OBBase → List PainterCall
  | .mol pmol =>
    match generateCoords env pmol with
    | .ok workingmol =>
      [PainterCall.DrawMolecule
        (if (pConv.IsOption "A").isSome then env.revertToAliasForm workingmol else workingmol)
        (depictOptions pConv) (pConv.IsOption "A").isSome]
    | .error _ => []
  | .other _ => []

/-- The sequence `SetIndex (n+1)`, draw of the first object, `SetIndex (n+2)`,
draw of the second object, and so on. -/
def seqCalls (env : Env) (pConv : OBConversion) : List OBBase → Int → List PainterCall
  | [], _ => []
  | pOb :: rest, n =>
    [PainterCall.SetIndex (n + 1)] ++ drawCallOf env pConv pOb ++ seqCalls env pConv rest (n + 1)

/-- The calls that fix the cell, draw a structure or emit the image. -/
def isOrderCall : PainterCall → Bool
  | .SetIndex _ => true
  | .DrawMolecule _ _ _ => true
  | .WriteImage => true
  | _ => false

/-- The `DrawMolecule` calls. -/
def isDraw : PainterCall → Bool
  | .DrawMolecule _ _ _ => true
  | _ => false

/-- A controller state: options, output index, last flag and current object. -/
def convOf (options : List (String × String)) (index : Int) (last : Bool) (pOb : OBBase) :
    OBConversion :=
  { options := options, outputIndex := index, last := last, chemObject := pOb }

/-- One record handed over by the controller: the output index, the last flag
and the object. -/
structure Record where
  index : Int
  last : Bool
  pOb : OBBase

/-- The controller submitting records one after the other: each record is
passed to `WriteChemObject` with the options left by the previous call.  The
result is the list of return values, the format and the options at the end. -/
def feed (env : Env) :
    PNG2Format → List (String × String) → List Record →
      List Bool × PNG2Format × List (String × String)
  | self, options, [] => ([], self, options)
  | self, options, r :: rs =>
    let o := WriteChemObject env self (convOf options r.index r.last r.pOb)
    let t := feed env o.2.1 o.2.2.options rs
    (o.1 :: t.1, t.2)

/-- Records for the objects, with output indices `start`, `start + 1`, ... and
the last flag false on all of them. -/
def stream : List OBBase → Int → List Record
  | [], _ => []
  | pOb :: rest, start => { index := start, last := false, pOb := pOb } :: stream rest (start + 1)

/-- The maximum in effect for a batch started with the given options: the value
of `_nmax` after lines 133-149. -/
def capOf (options : List (String × String)) : Int :=
  (startBatch PNG2Format.init (convOf options 1 false (OBBase.other ""))).1.nmax

/-- The return values of the `WriteMolecule` calls made by the loop of lines
182-193, in order. -/
def renderResults (env : Env) (size : Nat) :
    List OBBase → Int → PNG2Format → OBConversion → List Bool
  | [], _, _, _ => []
  | pOb :: rest, n, self, pConv =>
    let n1 := wrap32 (n + 1)
    let pConv1 : OBConversion :=
      { pConv with outputIndex := n1, last := decide (toSizeT n1 = (size : Int)) }
    let r := WriteMolecule env self pOb pConv1
    r.1 :: (if r.1 then renderResults env size rest n1 r.2.1 r.2.2 else [])

/-- The return values of the renders performed by one call of `WriteChemObject`:
none when the call does not complete the batch. -/
def callRenderResults (env : Env) (self : PNG2Format) (pConv : OBConversion) : List Bool :=
  let st := accumulate env self pConv
  if st.2.last || nomore st.1 then
    renderResults env st.1.objects.length st.1.objects 0
      { st.1 with nrows := (tableAtFlush st.1).1, ncols := (tableAtFlush st.1).2 } st.2
  else []

/-- Lines 129-201: the call up to the point where the output index is
reconciled. -/
def beforeReconcile (env : Env) (self : PNG2Format) (pConv : OBConversion) :
    Bool × PNG2Format × OBConversion :=
  if (accumulate env self pConv).2.last || nomore (accumulate env self pConv).1 then
    flush env (accumulate env self pConv).1 (accumulate env self pConv).2
  else (true, (accumulate env self pConv).1, (accumulate env self pConv).2)

/-- The calls that fix the dimensions of the image. -/
def isDimCall : PainterCall → Bool
  | .SetWidth _ => true
  | .SetHeight _ => true
  | .SetTableSize _ _ => true
  | _ => false

/-- The object is a molecule: `dynamic_cast<OBMol*>` succeeds. -/
def isMol : OBBase → Bool
  | .mol _ => true
  | .other _ => false

/-- A sequence of calls of `WriteChemObject` on one format, each with the
controller state the caller chooses for it; the result is the format after
the last call. -/
def run (env : Env) : PNG2Format → List OBConversion → PNG2Format
  | self, [] => self
  | self, pConv :: rest => run env (WriteChemObject env self pConv).2.1 rest

/-! ## Concrete inputs -/

/-- Collaborators that leave every object as it is; no `gen2D` is installed. -/
def envPlain : Env :=
  { gen2D := none, revertToAliasForm := fun m => m, doOutputOptions := fun pOb _ => pOb }

/-- A molecule with three atoms and 2D coordinates. -/
def molA : OBMol := { title := "A", numAtoms := 3, has2D := true, has2DNot3D := true }

/-- A molecule with three atoms and no coordinates. -/
def molFlat : OBMol := { title := "B", numAtoms := 3, has2D := false, has2DNot3D := false }

/-- A format holding `n` copies of `molA`, with the given `_nrows` and `_ncols`. -/
def formatWith (n : Nat) (nrows ncols : Int) : PNG2Format :=
  { PNG2Format.init with
    objects := List.replicate n (OBBase.mol molA), nrows := nrows, ncols := ncols }

/-- The controller at the second record of a batch: the marker option is set. -/
def convSecond (last : Bool) (pOb : OBBase) : OBConversion :=
  convOf [("pngwritechemobject", "")] 2 last pOb

/-- The format after a direct call of `WriteMolecule` (no marker option) on the
initial format. -/
def formatAfterDirectWrite : PNG2Format :=
  (WriteMolecule envPlain PNG2Format.init (OBBase.mol molA)
    (convOf [] 1 true (OBBase.mol molA))).2.1

/-! ## Machine integers and the square root -/

theorem wrap32_of_range (x : Int) (h1 : -2147483648 ≤ x) (h2 : x < 2147483648) :
    wrap32 x = x := by
  unfold wrap32
  omega

theorem toSizeT_of_nonneg (x : Int) (h1 : 0 ≤ x) (h2 : x < 2147483648) : toSizeT x = x := by
  unfold toSizeT
  omega

theorem log4_le_15 (n : Nat) (h2 : n < 2 ^ 31) : Nat.log 4 n ≤ 15 := by
  rcases Nat.eq_zero_or_pos n with h0 | h0
  · subst h0; simp
  · have h : Nat.log 4 n < 16 := by
      apply Nat.log_lt_of_lt_pow (by omega)
      calc n < 2 ^ 31 := h2
        _ ≤ 4 ^ 16 := by norm_num
    omega

/-- The ceiling of the binary64 square root of an `int`-sized natural number is
the exact integer ceiling of its square root. -/
theorem sqrtDouble_ceil (n : Nat) (h2 : n < 2 ^ 31) :
    ⌈sqrtDouble n⌉ = (ceilSqrtNat n : Int) := by
  unfold sqrtDouble ceilSqrtNat
  have hlog := log4_le_15 n h2
  generalize hk : 52 - Nat.log 4 n = k
  have hk37 : 37 ≤ k := by omega
  have hP : 2 ^ 37 ≤ 2 ^ k := Nat.pow_le_pow_right (by norm_num) hk37
  have h4 : 4 ^ k = 2 ^ k * 2 ^ k := by
    have h22 : (4 : ℕ) = 2 * 2 := rfl
    rw [h22, mul_pow]
  generalize hPdef : 2 ^ k = P at hP h4
  have hc1 : Nat.sqrt n * Nat.sqrt n ≤ n := Nat.sqrt_le n
  have hc2 : n < (Nat.sqrt n + 1) * (Nat.sqrt n + 1) := Nat.lt_succ_sqrt n
  generalize hcdef : Nat.sqrt n = c at hc1 hc2
  have hcb : c < 2 ^ 16 := by
    by_contra hcon
    have h16 : 2 ^ 16 ≤ c := by omega
    have : 2 ^ 16 * 2 ^ 16 ≤ c * c := Nat.mul_le_mul h16 h16
    omega
  have hPpos : (0 : ℚ) < (P : ℚ) := by
    have : 0 < P := by omega
    exact_mod_cast this
  have hPQ : ((2 : ℚ) ^ k) = (P : ℚ) := by
    rw [← hPdef]; push_cast; rfl
  simp only [hPQ]
  by_cases hsq : c * c = n
  · have hs : Nat.sqrt (n * 4 ^ k) = c * P := by
      rw [h4, ← hsq]
      have : c * c * (P * P) = (c * P) * (c * P) := by ring
      rw [this, Nat.sqrt_eq]
    rw [hs, h4, ← hsq]
    have hnot : ¬ (c * P * (c * P) + c * P < c * c * (P * P)) := by
      have : c * c * (P * P) = (c * P) * (c * P) := by ring
      omega
    rw [if_neg hnot, if_pos rfl]
    push_cast
    rw [mul_div_assoc, div_self (ne_of_gt hPpos), mul_one]
    exact Int.ceil_natCast c
  · rw [if_neg hsq]
    have hlt : c * c + 1 ≤ n := by omega
    have hlow : c * P + 1 ≤ Nat.sqrt (n * 4 ^ k) := by
      rw [Nat.le_sqrt, h4]
      have h2c : 2 * c + 1 ≤ P := by omega
      calc (c * P + 1) * (c * P + 1) = c * c * (P * P) + (2 * c * P + 1) := by ring
        _ ≤ c * c * (P * P) + (2 * c + 1) * P := by
            have : 2 * c * P + 1 ≤ (2 * c + 1) * P := by nlinarith
            omega
        _ ≤ c * c * (P * P) + P * P := by
            have := Nat.mul_le_mul_right P h2c
            omega
        _ = (c * c + 1) * (P * P) := by ring
        _ ≤ n * (P * P) := Nat.mul_le_mul_right _ hlt
    have hup : Nat.sqrt (n * 4 ^ k) < (c + 1) * P := by
      rw [Nat.sqrt_lt, h4]
      have hPP : 0 < P * P := by
        have : 0 < P := by omega
        positivity
      calc n * (P * P) < (c + 1) * (c + 1) * (P * P) := Nat.mul_lt_mul_of_pos_right hc2 hPP
        _ = (c + 1) * P * ((c + 1) * P) := by ring
    generalize Nat.sqrt (n * 4 ^ k) = s at hlow hup
    generalize hm : (if s * s + s < n * 4 ^ k then s + 1 else s) = m
    have hm1 : c * P + 1 ≤ m := by
      rw [← hm]; split_ifs <;> omega
    have hm2 : m ≤ (c + 1) * P := by
      rw [← hm]; split_ifs <;> omega
    rw [Int.ceil_eq_iff]
    constructor
    · push_cast
      rw [lt_div_iff₀ hPpos]
      have : ((c * P + 1 : ℕ) : ℚ) ≤ (m : ℚ) := by exact_mod_cast hm1
      push_cast at this
      linarith
    · push_cast
      rw [div_le_iff₀ hPpos]
      have : (m : ℚ) ≤ (((c + 1) * P : ℕ) : ℚ) := by exact_mod_cast hm2
      push_cast at this
      linarith

/-- The integer ceiling `ceilSqrtNat` is the ceiling of the real square root. -/
theorem ceil_real_sqrt (n : Nat) : ⌈Real.sqrt (n : ℝ)⌉ = (ceilSqrtNat n : Int) := by
  unfold ceilSqrtNat
  have hc1 : Nat.sqrt n * Nat.sqrt n ≤ n := Nat.sqrt_le n
  have hup : Real.sqrt (n : ℝ) ≤ Nat.sqrt n + 1 := Real.real_sqrt_le_nat_sqrt_succ
  generalize Nat.sqrt n = c at hc1 hup
  by_cases hsq : c * c = n
  · rw [if_pos hsq, ← hsq]
    push_cast
    rw [Real.sqrt_mul_self (Nat.cast_nonneg c)]
    exact Int.ceil_natCast c
  · rw [if_neg hsq, Int.ceil_eq_iff]
    constructor
    · push_cast
      have hlt : c * c < n := by omega
      have : ((c : ℝ)) < Real.sqrt (n : ℝ) := by
        rw [Real.lt_sqrt (Nat.cast_nonneg c)]
        have : ((c * c : ℕ) : ℝ) < (n : ℝ) := by exact_mod_cast hlt
        push_cast at this
        nlinarith
      linarith
    · push_cast
      exact hup

theorem ceilSqrtNat_spec (n : Nat) (h : 1 ≤ n) :
    (ceilSqrtNat n - 1) * (ceilSqrtNat n - 1) < n ∧ n ≤ ceilSqrtNat n * ceilSqrtNat n ∧
      1 ≤ ceilSqrtNat n ∧ ceilSqrtNat n ≤ n := by
  unfold ceilSqrtNat
  have hc1 : Nat.sqrt n * Nat.sqrt n ≤ n := Nat.sqrt_le n
  have hc2 : n < (Nat.sqrt n + 1) * (Nat.sqrt n + 1) := Nat.lt_succ_sqrt n
  have hc3 : 1 ≤ Nat.sqrt n := by
    rw [Nat.le_sqrt]; omega
  have hc4 : Nat.sqrt n ≤ n := Nat.sqrt_le_self n
  generalize Nat.sqrt n = c at hc1 hc2 hc3 hc4
  split_ifs with hsq
  · refine ⟨?_, by omega, hc3, hc4⟩
    have : (c - 1) * (c - 1) < c * c := by
      have : c - 1 < c := by omega
      exact Nat.mul_lt_mul_of_lt_of_le this (by omega) (by omega)
    omega
  · refine ⟨by simpa using (by omega : c * c < n), by omega, by omega, ?_⟩
    by_contra hcon
    have hcn : c = n := by omega
    subst hcn
    have : c * 1 ≤ c * c := Nat.mul_le_mul_left c hc3
    omega

/-- The value of `(int)ceil(sqrt((double)nmols))` for a positive `int`. -/
theorem ceilSqrt_eq (n : Nat) (h1 : 1 ≤ n) (h2 : n < 2 ^ 31) :
    ceilSqrt (n : Int) = (ceilSqrtNat n : Int) := by
  unfold ceilSqrt
  have hn : ¬ ((n : Int) < 0) := by omega
  have hz : ¬ ((n : Int) = 0) := by omega
  rw [if_neg hn, if_neg hz, Int.toNat_ofNat, sqrtDouble_ceil n h2]
  apply wrap32_of_range
  · omega
  · have := (ceilSqrtNat_spec n h1).2.2.2
    omega


/-! ## Table layout -/

theorem ceil_div_eq (n k : Int) (hk : 0 < k) :
    (n - 1) / k + 1 = ⌈(n : ℚ) / (k : ℚ)⌉ := by
  symm
  rw [Int.ceil_eq_iff]
  have hkq : (0 : ℚ) < (k : ℚ) := by exact_mod_cast hk
  have h1 : (n - 1) / k * k ≤ n - 1 := Int.ediv_mul_le _ (ne_of_gt hk)
  have h2 : n - 1 < ((n - 1) / k + 1) * k := Int.lt_ediv_add_one_mul_self _ hk
  constructor
  · rw [lt_div_iff₀ hkq]
    have : (n - 1) / k * k < n := by omega
    have hq : (((n - 1) / k * k : Int) : ℚ) < (n : ℚ) := by exact_mod_cast this
    push_cast at hq ⊢
    linarith
  · rw [div_le_iff₀ hkq]
    have : n ≤ ((n - 1) / k + 1) * k := by omega
    have hq : (n : ℚ) ≤ ((((n - 1) / k + 1) * k : Int) : ℚ) := by exact_mod_cast this
    push_cast at hq ⊢
    linarith

theorem tdiv_ceil (n k : Int) (hn : 1 ≤ n) (hb : n < 2147483648) (hk : 0 < k) :
    wrap32 (Int.tdiv (wrap32 (n - 1)) k + 1) = ⌈(n : ℚ) / (k : ℚ)⌉ := by
  rw [wrap32_of_range (n - 1) (by omega) (by omega),
    Int.tdiv_eq_ediv (by omega) (le_of_lt hk), ← ceil_div_eq n k hk]
  apply wrap32_of_range
  · have : 0 ≤ (n - 1) / k := Int.ediv_nonneg (by omega) (le_of_lt hk)
    omega
  · have : (n - 1) / k ≤ n - 1 := Int.ediv_le_self _ (by omega)
    omega

theorem resolveTable_rows (n k : Int) (hn : 0 ≤ n) (hb : n < 2147483648) (hk : 0 < k) :
    resolveTable n k 0 = (k, ⌈(n : ℚ) / (k : ℚ)⌉) := by
  unfold resolveTable
  have hk0 : k ≠ 0 := ne_of_gt hk
  rcases eq_or_lt_of_le hn with h0 | hpos
  · subst h0
    simp
  · have hn0 : n ≠ 0 := ne_of_gt hpos
    simp [hn0, hk0, tdiv_ceil n k (by omega) hb hk]

theorem resolveTable_cols (n k : Int) (hn : 0 ≤ n) (hb : n < 2147483648) (hk : 0 < k) :
    resolveTable n 0 k = (⌈(n : ℚ) / (k : ℚ)⌉, k) := by
  unfold resolveTable
  have hk0 : k ≠ 0 := ne_of_gt hk
  rcases eq_or_lt_of_le hn with h0 | hpos
  · subst h0
    simp
  · have hn0 : n ≠ 0 := ne_of_gt hpos
    simp [hn0, hk0, tdiv_ceil n k (by omega) hb hk]

theorem resolveTable_square (n : Nat) (h2 : 2 ≤ n) (hb : n < 2 ^ 31) :
    resolveTable (n : Int) 0 0 =
      (⌈(n : ℚ) / ((ceilSqrtNat n : Int) : ℚ)⌉, (ceilSqrtNat n : Int)) := by
  unfold resolveTable
  have hn0 : (n : Int) ≠ 0 := by omega
  have hn1 : (n : Int) ≠ 1 := by omega
  have hs := ceilSqrtNat_spec n (by omega)
  have hc : ((ceilSqrtNat n : Nat) : Int) ≠ 0 := by omega
  simp [hn0, hn1, ceilSqrt_eq n (by omega) hb, hc]
  exact tdiv_ceil n _ (by omega) (by omega) (by omega)

theorem resolveTable_both (n r c : Int) (hr : r ≠ 0) (hc : c ≠ 0) :
    resolveTable n r c = (r, c) := by
  unfold resolveTable
  simp [hr, hc]

theorem resolveTable_one : resolveTable 1 0 0 = (0, 0) := by
  unfold resolveTable
  simp

/-- C4: with neither a row nor a column constraint in effect (`_nrows` and
`_ncols` both 0) and a batch of `count ≥ 2` structures, the grid resolved at
flush has `cols = ⌈√count⌉` and `rows = ⌈count / cols⌉`, both exact ceilings. The
count is an `int`, hence below `2^31`. -/
theorem C4_square_auto_layout (self : PNG2Format) (hr : self.nrows = 0) (hc : self.ncols = 0)
    (h2 : 2 ≤ self.objects.length) (hb : self.objects.length < 2 ^ 31) :
    (tableAtFlush self).2 = ⌈Real.sqrt (self.objects.length : ℝ)⌉ ∧
    (tableAtFlush self).1 =
      ⌈(self.objects.length : ℚ) / (((tableAtFlush self).2 : Int) : ℚ)⌉ := by
  have hw : wrap32 (self.objects.length : Int) = (self.objects.length : Int) :=
    wrap32_of_range _ (by omega) (by omega)
  have ht : tableAtFlush self = (⌈(self.objects.length : ℚ) /
      ((ceilSqrtNat self.objects.length : Int) : ℚ)⌉, (ceilSqrtNat self.objects.length : Int)) := by
    unfold tableAtFlush
    rw [hr, hc, hw]
    exact resolveTable_square _ h2 hb
  rw [ht]
  exact ⟨(ceil_real_sqrt _).symm, rfl⟩

/-- Witness of C4: five structures, no constraint. -/
theorem C4_square_auto_layout_witness :
    (formatWith 5 0 0).nrows = 0 ∧ (formatWith 5 0 0).ncols = 0 ∧
    2 ≤ (formatWith 5 0 0).objects.length ∧ (formatWith 5 0 0).objects.length < 2 ^ 31 ∧
    ((tableAtFlush (formatWith 5 0 0)).2 =
        ⌈Real.sqrt ((formatWith 5 0 0).objects.length : ℝ)⌉ ∧
      (tableAtFlush (formatWith 5 0 0)).1 =
        ⌈((formatWith 5 0 0).objects.length : ℚ) /
          (((tableAtFlush (formatWith 5 0 0)).2 : Int) : ℚ)⌉) :=
  ⟨rfl, rfl, by decide, by decide,
    C4_square_auto_layout (formatWith 5 0 0) rfl rfl (by decide) (by decide)⟩

/-- C5: with only a positive row constraint in effect (`_ncols` is 0) the grid
resolved at flush keeps the rows and has `cols = ⌈count / rows⌉`, for every count
from 0 on; with only a positive column constraint in effect it keeps the columns
and has `rows = ⌈count / cols⌉`. -/
theorem C5_one_constraint_layout (self : PNG2Format) (hb : self.objects.length < 2 ^ 31) :
    (0 < self.nrows → self.ncols = 0 →
      tableAtFlush self =
        (self.nrows, ⌈(self.objects.length : ℚ) / (self.nrows : ℚ)⌉)) ∧
    (0 < self.ncols → self.nrows = 0 →
      tableAtFlush self =
        (⌈(self.objects.length : ℚ) / (self.ncols : ℚ)⌉, self.ncols)) := by
  have hw : wrap32 (self.objects.length : Int) = (self.objects.length : Int) :=
    wrap32_of_range _ (by omega) (by omega)
  constructor
  · intro hr hc
    unfold tableAtFlush
    rw [hc, hw]
    exact_mod_cast resolveTable_rows (self.objects.length : Int) self.nrows (by omega) (by omega) hr
  · intro hc hr
    unfold tableAtFlush
    rw [hr, hw]
    exact_mod_cast resolveTable_cols (self.objects.length : Int) self.ncols (by omega) (by omega) hc

/-- Witness of C5: seven structures in two rows, and seven structures in three
columns. -/
theorem C5_one_constraint_layout_witness :
    (formatWith 7 2 0).objects.length < 2 ^ 31 ∧ 0 < (formatWith 7 2 0).nrows ∧
    (formatWith 7 2 0).ncols = 0 ∧
    tableAtFlush (formatWith 7 2 0) =
      ((formatWith 7 2 0).nrows,
        ⌈((formatWith 7 2 0).objects.length : ℚ) / ((formatWith 7 2 0).nrows : ℚ)⌉) ∧
    0 < (formatWith 7 0 3).ncols ∧ (formatWith 7 0 3).nrows = 0 ∧
    tableAtFlush (formatWith 7 0 3) =
      (⌈((formatWith 7 0 3).objects.length : ℚ) / ((formatWith 7 0 3).ncols : ℚ)⌉,
        (formatWith 7 0 3).ncols) :=
  ⟨by decide, by decide, rfl,
    (C5_one_constraint_layout (formatWith 7 2 0) (by decide)).1 (by decide) rfl,
    by decide, rfl,
    (C5_one_constraint_layout (formatWith 7 0 3) (by decide)).2 (by decide) rfl⟩

/-- C8: with positive row and column constraints both in effect, the grid
resolved at flush is exactly `(rows, cols)`, whatever the number of
stored structures. -/
theorem C8_explicit_geometry_kept (self : PNG2Format) (hr : 0 < self.nrows)
    (hc : 0 < self.ncols) : tableAtFlush self = (self.nrows, self.ncols) := by
  unfold tableAtFlush
  exact resolveTable_both _ _ _ (ne_of_gt hr) (ne_of_gt hc)

/-- Witness of C8: five structures with `rows = 1`, `cols = 1` stay at `(1, 1)`. -/
theorem C8_explicit_geometry_kept_witness :
    0 < (formatWith 5 1 1).nrows ∧ 0 < (formatWith 5 1 1).ncols ∧
    (formatWith 5 1 1).nrows * (formatWith 5 1 1).ncols < (formatWith 5 1 1).objects.length ∧
    tableAtFlush (formatWith 5 1 1) = ((formatWith 5 1 1).nrows, (formatWith 5 1 1).ncols) :=
  ⟨by decide, by decide, by decide,
    C8_explicit_geometry_kept (formatWith 5 1 1) (by decide) (by decide)⟩


/-! ## Start of a batch -/

theorem IsOption_AddOption (pConv : OBConversion) (name : String)
    (h : (name == "pngwritechemobject") = false) :
    (pConv.AddOption "pngwritechemobject").IsOption name = pConv.IsOption name := by
  simp [OBConversion.IsOption, OBConversion.AddOption, List.lookup, h]

theorem IsOption_marker_AddOption (pConv : OBConversion) :
    (pConv.AddOption "pngwritechemobject").IsOption "pngwritechemobject" = some "" := by
  simp [OBConversion.IsOption, OBConversion.AddOption, List.lookup]

/-- C9, as the claim states it, fails: with `r=2`, `c=3` and `N=4` all given the
maximum is 4, not `rows*cols = 6`. -/
theorem C9_counterexample :
    (convOf [("r", "2"), ("c", "3"), ("N", "4")] 1 false (OBBase.mol molA)).IsOption "r"
      = some "2" ∧
    (convOf [("r", "2"), ("c", "3"), ("N", "4")] 1 false (OBBase.mol molA)).IsOption "c"
      = some "3" ∧
    (accumulate envPlain PNG2Format.init
      (convOf [("r", "2"), ("c", "3"), ("N", "4")] 1 false (OBBase.mol molA))).1.nrows = 2 ∧
    (accumulate envPlain PNG2Format.init
      (convOf [("r", "2"), ("c", "3"), ("N", "4")] 1 false (OBBase.mol molA))).1.ncols = 3 ∧
    (accumulate envPlain PNG2Format.init
      (convOf [("r", "2"), ("c", "3"), ("N", "4")] 1 false (OBBase.mol molA))).1.nmax = 4 ∧
    (accumulate envPlain PNG2Format.init
      (convOf [("r", "2"), ("c", "3"), ("N", "4")] 1 false (OBBase.mol molA))).1.nmax ≠ 2 * 3 := by
  with_unfolding_all decide

/-- C9, amended: on a record with output index at most 1, if `N` is given the
maximum is `N`, also when `r` and `c` are both given; otherwise, if `r` and `c`
are both given, rows and cols are their values and the maximum is `rows*cols`
(as an `int`); otherwise the maximum is 0, the batch is unbounded. -/
theorem C9_max_count_derivation (env : Env) (self : PNG2Format) (pConv : OBConversion)
    (h : pConv.outputIndex ≤ 1) :
    (∀ t, pConv.IsOption "N" = some t → (accumulate env self pConv).1.nmax = atoi t) ∧
    (pConv.IsOption "N" = none → ∀ a b, pConv.IsOption "r" = some a →
      pConv.IsOption "c" = some b →
        (accumulate env self pConv).1.nrows = atoi a ∧
        (accumulate env self pConv).1.ncols = atoi b ∧
        (accumulate env self pConv).1.nmax = wrap32 (atoi a * atoi b) ∧
        (-2147483648 ≤ atoi a * atoi b → atoi a * atoi b < 2147483648 →
          (accumulate env self pConv).1.nmax = atoi a * atoi b)) ∧
    (pConv.IsOption "N" = none → (pConv.IsOption "r" = none ∨ pConv.IsOption "c" = none) →
      (accumulate env self pConv).1.nmax = 0) := by
  have hN := IsOption_AddOption pConv "N" (by decide)
  have hr := IsOption_AddOption pConv "r" (by decide)
  have hc := IsOption_AddOption pConv "c" (by decide)
  refine ⟨?_, ?_, ?_⟩
  · intro t ht
    simp [accumulate, startBatch, h, hN, hr, hc, ht]
  · intro hn a b ha hb
    simp [accumulate, startBatch, h, hN, hr, hc, hn, ha, hb]
    intro h1 h2
    exact wrap32_of_range _ h1 h2
  · intro hn hrc
    rcases hrc with h0 | h0
    · cases hcv : pConv.IsOption "c" <;>
        simp [accumulate, startBatch, h, hN, hr, hc, hn, h0, hcv]
    · cases hrv : pConv.IsOption "r" <;>
        simp [accumulate, startBatch, h, hN, hr, hc, hn, h0, hrv]

/-- Witness of C9: the options `r=2`, `c=3` at output index 1. -/
theorem C9_max_count_derivation_witness :
    (convOf [("r", "2"), ("c", "3")] 1 false (OBBase.mol molA)).outputIndex ≤ 1 ∧
    (accumulate envPlain PNG2Format.init
      (convOf [("r", "2"), ("c", "3")] 1 false (OBBase.mol molA))).1.nmax
        = atoi "2" * atoi "3" :=
  ⟨by decide,
    ((C9_max_count_derivation envPlain PNG2Format.init
      (convOf [("r", "2"), ("c", "3")] 1 false (OBBase.mol molA)) (by decide)).2.1
        (by decide) "2" "3" (by decide) (by decide)).2.2.2
      (by with_unfolding_all decide) (by with_unfolding_all decide)⟩

/-! ## Completion -/

/-- C10: a call that completes the batch (the record is the last one, or the
maximum is reached) returns with an empty buffer and with rows, cols and max all
0, whatever the renders did. -/
theorem C10_reset_after_completion (env : Env) (self : PNG2Format) (pConv : OBConversion)
    (h : pConv.last = true ∨ nomore (accumulate env self pConv).1 = true) :
    (WriteChemObject env self pConv).2.1.objects = [] ∧
    (WriteChemObject env self pConv).2.1.nrows = 0 ∧
    (WriteChemObject env self pConv).2.1.ncols = 0 ∧
    (WriteChemObject env self pConv).2.1.nmax = 0 := by
  have hl : (accumulate env self pConv).2.last = pConv.last := by
    unfold accumulate startBatch OBConversion.AddOption
    split_ifs <;> rfl
  have hcond : ((accumulate env self pConv).2.last || nomore (accumulate env self pConv).1)
      = true := by
    rw [hl]
    rcases h with h | h <;> simp [h]
  unfold WriteChemObject
  simp only [hcond, if_true]
  simp [flush]

/-- Witness of C10: a batch of one molecule without coordinates, whose render
fails, submitted as the last record. -/
theorem C10_reset_after_completion_witness :
    (convOf [] 1 true (OBBase.mol molFlat)).last = true ∧
    (WriteChemObject envPlain PNG2Format.init (convOf [] 1 true (OBBase.mol molFlat))).1
      = false ∧
    (WriteChemObject envPlain PNG2Format.init
      (convOf [] 1 true (OBBase.mol molFlat))).2.1.objects = [] ∧
    (WriteChemObject envPlain PNG2Format.init
      (convOf [] 1 true (OBBase.mol molFlat))).2.1.nrows = 0 ∧
    (WriteChemObject envPlain PNG2Format.init
      (convOf [] 1 true (OBBase.mol molFlat))).2.1.ncols = 0 ∧
    (WriteChemObject envPlain PNG2Format.init
      (convOf [] 1 true (OBBase.mol molFlat))).2.1.nmax = 0 :=
  ⟨rfl, by decide,
    C10_reset_after_completion envPlain PNG2Format.init
      (convOf [] 1 true (OBBase.mol molFlat)) (Or.inl rfl)⟩


/-! ## The render loop -/

theorem WriteMolecule_marked (env : Env) (self : PNG2Format) (pOb : OBBase)
    (pConv : OBConversion) (hm : (pConv.IsOption "pngwritechemobject").isNone = false)
    (hr : renders env pOb = true) :
    WriteMolecule env self pOb pConv =
      (true,
        { self with
          cairopainter := self.cairopainter ++ objectCalls env self.nrows self.ncols pConv pOb },
        pConv) := by
  cases pOb with
  | other t => simp [renders] at hr
  | mol pmol =>
    cases hg : generateCoords env pmol with
    | error e => simp [renders, hg] at hr
    | ok w => simp [WriteMolecule, objectCalls, hg, hm]

theorem WriteMolecule_fails (env : Env) (self : PNG2Format) (pOb : OBBase)
    (pConv : OBConversion) (hr : renders env pOb = false) :
    (WriteMolecule env self pOb pConv).1 = false ∧
    (WriteMolecule env self pOb pConv).2.1.cairopainter = self.cairopainter ∧
    (WriteMolecule env self pOb pConv).2.2.options = pConv.options := by
  cases pOb with
  | other t => simp [WriteMolecule]
  | mol pmol =>
    cases hg : generateCoords env pmol with
    | error e =>
      simp only [WriteMolecule, hg]
      split_ifs <;> simp
    | ok w => simp [renders, hg] at hr

theorem batchCalls_congr (env : Env) (nrows ncols : Int) (pConv : OBConversion) (size : Nat)
    (i : Int) (l : Bool) (obs : List OBBase) :
    ∀ n : Int, batchCalls env nrows ncols { pConv with outputIndex := i, last := l } size obs n
      = batchCalls env nrows ncols pConv size obs n := by
  induction obs with
  | nil => intro n; rfl
  | cons pOb rest ih =>
    intro n
    simp only [batchCalls, ih]

/-- The loop over objects, when the marker option is set: it returns whether every
object renders, the painter receives `batchCalls`, and nothing else changes in
the format but the error log. -/
theorem writeAll_marked (env : Env) (size : Nat) (obs : List OBBase) :
    ∀ (n : Int) (self : PNG2Format) (pConv : OBConversion),
      0 ≤ n → n + obs.length < 2147483648 →
      (pConv.IsOption "pngwritechemobject").isNone = false →
      (writeAll env size obs n self pConv).1 = obs.all (renders env) ∧
      (writeAll env size obs n self pConv).2.1.cairopainter =
        self.cairopainter ++ batchCalls env self.nrows self.ncols pConv size obs n ∧
      (writeAll env size obs n self pConv).2.2.options = pConv.options := by
  induction obs with
  | nil =>
    intro n self pConv _ _ _
    simp [writeAll, batchCalls]
  | cons pOb rest ih =>
    intro n self pConv h0 hb hm
    have hlen : ((pOb :: rest).length : Int) = (rest.length : Int) + 1 := by
      simp
    have hw : wrap32 (n + 1) = n + 1 := wrap32_of_range _ (by omega) (by omega)
    have hs : toSizeT (n + 1) = n + 1 := toSizeT_of_nonneg _ (by omega) (by omega)
    unfold writeAll
    simp only [hw, hs]
    cases hr : renders env pOb with
    | false =>
      have hf := WriteMolecule_fails env self pOb
        { pConv with outputIndex := n + 1, last := decide (n + 1 = (size : Int)) } hr
      simp only [hf.1, Bool.false_eq_true, if_false, List.all_cons, hr, Bool.false_and,
        batchCalls, List.append_nil, true_and]
      exact ⟨hf.2.1, hf.2.2⟩
    | true =>
      have hmm : (({ pConv with outputIndex := n + 1, last := decide (n + 1 = (size : Int)) } :
          OBConversion).IsOption "pngwritechemobject").isNone = false := hm
      rw [WriteMolecule_marked env self pOb _ hmm hr]
      simp only [if_true]
      have := ih (n + 1) { self with
          cairopainter := self.cairopainter ++ objectCalls env self.nrows self.ncols
            { pConv with outputIndex := n + 1, last := decide (n + 1 = (size : Int)) } pOb }
        { pConv with outputIndex := n + 1, last := decide (n + 1 = (size : Int)) }
        (by omega) (by omega) hmm
      obtain ⟨h1, h2, h3⟩ := this
      refine ⟨?_, ?_, ?_⟩
      · rw [h1]; simp [hr]
      · rw [h2, batchCalls_congr]
        simp [batchCalls, hr]
      · rw [h3]

theorem objectCalls_filter (env : Env) (nrows ncols : Int) (pConv : OBConversion)
    (pOb : OBBase) (hr : renders env pOb = true) :
    (objectCalls env nrows ncols pConv pOb).filter isOrderCall =
      [PainterCall.SetIndex pConv.outputIndex] ++ drawCallOf env pConv pOb ++
        (if pConv.last then [PainterCall.WriteImage] else []) := by
  cases pOb with
  | other t => simp [renders] at hr
  | mol pmol =>
    cases hg : generateCoords env pmol with
    | error e => simp [renders, hg] at hr
    | ok w =>
      simp only [objectCalls, drawCallOf, hg, paintCalls]
      by_cases h1 : pConv.outputIndex = 1 <;> cases hl : pConv.last <;>
        simp [List.filter, isOrderCall, h1]

theorem objectCalls_filter_draw (env : Env) (nrows ncols : Int) (pConv : OBConversion)
    (pOb : OBBase) :
    (objectCalls env nrows ncols pConv pOb).filter isDraw = drawCallOf env pConv pOb := by
  cases pOb with
  | other t => simp [objectCalls, drawCallOf]
  | mol pmol =>
    cases hg : generateCoords env pmol with
    | error e => simp [objectCalls, drawCallOf, hg]
    | ok w =>
      simp only [objectCalls, drawCallOf, hg, paintCalls]
      by_cases h1 : pConv.outputIndex = 1 <;> cases hl : pConv.last <;>
        simp [List.filter, isDraw, h1]

theorem drawCallOf_length (env : Env) (pConv : OBConversion) (pOb : OBBase)
    (hr : renders env pOb = true) : (drawCallOf env pConv pOb).length = 1 := by
  cases pOb with
  | other t => simp [renders] at hr
  | mol pmol =>
    cases hg : generateCoords env pmol with
    | error e => simp [renders, hg] at hr
    | ok w => simp [drawCallOf, hg]

theorem drawCallOf_congr (env : Env) (pConv : OBConversion) (i : Int) (l : Bool)
    (pOb : OBBase) :
    drawCallOf env { pConv with outputIndex := i, last := l } pOb = drawCallOf env pConv pOb := by
  cases pOb <;> rfl

theorem mem_seqCalls (env : Env) (pConv : OBConversion) (obs : List OBBase) :
    ∀ (n : Int) (c : PainterCall), c ∈ seqCalls env pConv obs n → c ≠ PainterCall.WriteImage := by
  induction obs with
  | nil => intro n c hc; simp [seqCalls] at hc
  | cons pOb rest ih =>
    intro n c hc
    simp only [seqCalls, List.mem_append, List.mem_singleton] at hc
    rcases hc with (hc | hc) | hc
    · rw [hc]; simp
    · cases pOb with
      | other t => simp [drawCallOf] at hc
      | mol pmol =>
        cases hg : generateCoords env pmol with
        | error e => simp [drawCallOf, hg] at hc
        | ok w =>
          simp [drawCallOf, hg] at hc
          rw [hc]; simp
    · exact ih _ _ hc

/-- The order calls of a batch in which every object renders. -/
theorem batchCalls_filter (env : Env) (nrows ncols : Int) (pConv : OBConversion) (size : Nat)
    (obs : List OBBase) :
    ∀ n : Int, (∀ pOb ∈ obs, renders env pOb = true) → n + obs.length = size →
      (batchCalls env nrows ncols pConv size obs n).filter isOrderCall =
        seqCalls env pConv obs n ++ (if obs = [] then [] else [PainterCall.WriteImage]) := by
  induction obs with
  | nil => intro n _ _; simp [batchCalls, seqCalls]
  | cons pOb rest ih =>
    intro n hall hn
    have hr : renders env pOb = true := hall pOb (List.mem_cons_self _ _)
    have hrest : ∀ q ∈ rest, renders env q = true := fun q hq => hall q (List.mem_cons_of_mem _ hq)
    have hlen : ((pOb :: rest).length : Int) = (rest.length : Int) + 1 := by simp
    simp only [batchCalls, hr, if_true, List.filter_append, seqCalls]
    rw [objectCalls_filter env nrows ncols _ pOb hr, ih (n + 1) hrest (by omega),
      drawCallOf_congr]
    rcases rest with _ | ⟨q, rest'⟩
    · have : n + 1 = (size : Int) := by simpa using hn
      simp [this, seqCalls]
    · have : ¬ (n + 1 = (size : Int)) := by
        simp only [List.length_cons] at hn
        push_cast at hn
        omega
      simp [this]

/-- Facts on the calls of a batch whose object at position `j` (from 0) does not
render: no image is written, no cell beyond `j` is set, at most `j` draws. -/
theorem batchCalls_fail (env : Env) (nrows ncols : Int) (pConv : OBConversion) (size : Nat)
    (obs : List OBBase) :
    ∀ (n : Int) (j : Nat) (x : OBBase), obs.get? j = some x → renders env x = false →
      n + obs.length ≤ size →
      PainterCall.WriteImage ∉ batchCalls env nrows ncols pConv size obs n ∧
      (∀ i, PainterCall.SetIndex i ∈ batchCalls env nrows ncols pConv size obs n → i ≤ n + j) ∧
      ((batchCalls env nrows ncols pConv size obs n).filter isDraw).length ≤ j := by
  induction obs with
  | nil => intro n j x hx; simp at hx
  | cons pOb rest ih =>
    intro n j x hx hfail hn
    cases hr : renders env pOb with
    | false => simp [batchCalls, hr]
    | true =>
      cases j with
      | zero =>
        simp at hx
        rw [hx] at hr
        rw [hr] at hfail
        cases hfail
      | succ j' =>
        simp only [List.get?_cons_succ] at hx
        have hpos : 0 < rest.length := by
          cases rest with
          | nil => simp at hx
          | cons _ _ => simp
        have hlen : ((pOb :: rest).length : Int) = (rest.length : Int) + 1 := by simp
        have hnl : ¬ (n + 1 = (size : Int)) := by omega
        obtain ⟨ih1, ih2, ih3⟩ := ih (n + 1) j' x hx hfail (by omega)
        have hf := objectCalls_filter env nrows ncols
          { pConv with outputIndex := n + 1, last := decide (n + 1 = (size : Int)) } pOb hr
        have hd : decide (n + 1 = (size : Int)) = false := by simp [hnl]
        simp only [hd, Bool.false_eq_true, if_false, List.append_nil] at hf
        simp only [batchCalls, hr, if_true, hd, List.mem_append, List.filter_append,
          List.length_append]
        refine ⟨?_, ?_, ?_⟩
        · rintro (h | h)
          · have : PainterCall.WriteImage ∈ (objectCalls env nrows ncols
                { pConv with outputIndex := n + 1, last := false }
                pOb).filter isOrderCall := List.mem_filter.mpr ⟨h, rfl⟩
            rw [hf] at this
            simp only [List.mem_append, List.mem_singleton] at this
            rcases this with h' | h'
            · cases h'
            · cases pOb with
              | other t => simp [drawCallOf] at h'
              | mol pmol =>
                cases hg : generateCoords env pmol with
                | error e => simp [drawCallOf, hg] at h'
                | ok w => simp [drawCallOf, hg] at h'
          · exact ih1 h
        · rintro i (h | h)
          · have : PainterCall.SetIndex i ∈ (objectCalls env nrows ncols
                { pConv with outputIndex := n + 1, last := false }
                pOb).filter isOrderCall := List.mem_filter.mpr ⟨h, rfl⟩
            rw [hf] at this
            simp only [List.mem_append, List.mem_singleton] at this
            rcases this with h' | h'
            · simp only [PainterCall.SetIndex.injEq] at h'
              push_cast
              omega
            · cases pOb with
              | other t => simp [drawCallOf] at h'
              | mol pmol =>
                cases hg : generateCoords env pmol with
                | error e => simp [drawCallOf, hg] at h'
                | ok w => simp [drawCallOf, hg] at h'
          · have := ih2 i h
            push_cast
            omega
        · rw [objectCalls_filter_draw, drawCallOf_length env _ pOb hr]
          omega

/-! ## The completing call -/

theorem startBatch_facts (self : PNG2Format) (pConv : OBConversion) :
    (startBatch self pConv).1.objects = [] ∧
    (startBatch self pConv).1.cairopainter = self.cairopainter ∧
    (startBatch self pConv).2 = pConv.AddOption "pngwritechemobject" := by
  have hN := IsOption_AddOption pConv "N" (by decide)
  have hr := IsOption_AddOption pConv "r" (by decide)
  have hc := IsOption_AddOption pConv "c" (by decide)
  cases hNv : pConv.IsOption "N" <;> cases hrv : pConv.IsOption "r" <;>
    cases hcv : pConv.IsOption "c" <;>
    simp [startBatch, hN, hr, hc, hNv, hrv, hcv]

theorem accumulate_painter (env : Env) (self : PNG2Format) (pConv : OBConversion) :
    (accumulate env self pConv).1.cairopainter = self.cairopainter := by
  unfold accumulate
  split_ifs
  · exact (startBatch_facts self pConv).2.1
  · rfl

theorem accumulate_last (env : Env) (self : PNG2Format) (pConv : OBConversion) :
    (accumulate env self pConv).2.last = pConv.last := by
  unfold accumulate startBatch OBConversion.AddOption
  split_ifs <;> rfl

theorem accumulate_marked (env : Env) (self : PNG2Format) (pConv : OBConversion)
    (h : pConv.outputIndex ≤ 1 ∨ (pConv.IsOption "pngwritechemobject").isSome = true) :
    ((accumulate env self pConv).2.IsOption "pngwritechemobject").isSome = true := by
  unfold accumulate startBatch
  split_ifs with h1
  · simp [IsOption_marker_AddOption]
  · rcases h with h | h
    · exact absurd h h1
    · exact h


/-- The call that completes a batch whose marker option is set: the result is
false unless every stored object renders and the maximum was not reached, and
the painter receives the calls of the loop for the table resolved at flush. -/
theorem completing_call (env : Env) (self : PNG2Format) (pConv : OBConversion)
    (hcomp : pConv.last = true ∨ nomore (accumulate env self pConv).1 = true)
    (hm : ((accumulate env self pConv).2.IsOption "pngwritechemobject").isSome = true)
    (hb : (accumulate env self pConv).1.objects.length < 2 ^ 31) :
    (WriteChemObject env self pConv).1 =
      ((accumulate env self pConv).1.objects.all (renders env) &&
        !nomore (accumulate env self pConv).1) ∧
    (WriteChemObject env self pConv).2.1.cairopainter =
      self.cairopainter ++
        batchCalls env (tableAtFlush (accumulate env self pConv).1).1
          (tableAtFlush (accumulate env self pConv).1).2 (accumulate env self pConv).2
          (accumulate env self pConv).1.objects.length (accumulate env self pConv).1.objects 0 := by
  have hcond : ((accumulate env self pConv).2.last || nomore (accumulate env self pConv).1)
      = true := by
    rw [accumulate_last]
    rcases hcomp with h | h <;> simp [h]
  have hm' : ((accumulate env self pConv).2.IsOption "pngwritechemobject").isNone = false := by
    cases hopt : (accumulate env self pConv).2.IsOption "pngwritechemobject" with
    | none => rw [hopt] at hm; cases hm
    | some t => rfl
  have hpaint := accumulate_painter env self pConv
  unfold WriteChemObject flush
  generalize accumulate env self pConv = st at hcond hm' hb hpaint ⊢
  obtain ⟨h1, h2, _⟩ := writeAll_marked env st.1.objects.length st.1.objects 0
    { st.1 with nrows := (tableAtFlush st.1).1, ncols := (tableAtFlush st.1).2 } st.2
    (le_refl 0) (by omega) hm'
  simp only [hcond, if_true]
  rw [h1, h2]
  simp only [hpaint, and_self]

theorem batchCalls_draws (env : Env) (nrows ncols : Int) (pConv : OBConversion) (size : Nat)
    (obs : List OBBase) :
    ∀ n : Int, (∀ pOb ∈ obs, renders env pOb = true) →
      ((batchCalls env nrows ncols pConv size obs n).filter isDraw).length = obs.length := by
  induction obs with
  | nil => intro n _; simp [batchCalls]
  | cons pOb rest ih =>
    intro n hall
    have hr : renders env pOb = true := hall pOb (List.mem_cons_self _ _)
    have hrest : ∀ q ∈ rest, renders env q = true := fun q hq => hall q (List.mem_cons_of_mem _ hq)
    simp only [batchCalls, hr, if_true, List.filter_append, List.length_append,
      objectCalls_filter_draw, drawCallOf_length env _ pOb hr, ih (n + 1) hrest,
      List.length_cons]
    omega

/-- The calls of a completing call in which every stored object renders. -/
theorem completing_all_render (env : Env) (self : PNG2Format) (pConv : OBConversion)
    (hcomp : pConv.last = true ∨ nomore (accumulate env self pConv).1 = true)
    (hm : ((accumulate env self pConv).2.IsOption "pngwritechemobject").isSome = true)
    (hb : (accumulate env self pConv).1.objects.length < 2 ^ 31)
    (hall : ∀ pOb ∈ (accumulate env self pConv).1.objects, renders env pOb = true) :
    ∃ calls : List PainterCall,
      (WriteChemObject env self pConv).2.1.cairopainter = self.cairopainter ++ calls ∧
      calls.filter isOrderCall =
        seqCalls env (accumulate env self pConv).2 (accumulate env self pConv).1.objects 0 ++
          [PainterCall.WriteImage] ∧
      calls.count PainterCall.WriteImage = 1 ∧
      (calls.filter isDraw).length = (accumulate env self pConv).1.objects.length := by
  obtain ⟨_, h2⟩ := completing_call env self pConv hcomp hm hb
  have hne : (accumulate env self pConv).1.objects ≠ [] := by
    unfold accumulate
    simp
  have hf := batchCalls_filter env (tableAtFlush (accumulate env self pConv).1).1
    (tableAtFlush (accumulate env self pConv).1).2 (accumulate env self pConv).2
    (accumulate env self pConv).1.objects.length (accumulate env self pConv).1.objects 0 hall
    (by omega)
  rw [if_neg hne] at hf
  refine ⟨_, h2, hf, ?_, batchCalls_draws env _ _ _ _ _ 0 hall⟩
  have hc : ∀ l : List PainterCall,
      l.count PainterCall.WriteImage = (l.filter isOrderCall).count PainterCall.WriteImage :=
    fun l => (List.count_filter rfl).symm
  rw [hc, hf, List.count_append]
  have h0 : (seqCalls env (accumulate env self pConv).2
      (accumulate env self pConv).1.objects 0).count PainterCall.WriteImage = 0 := by
    rw [List.count_eq_zero]
    intro hmem
    exact mem_seqCalls env _ _ _ _ hmem rfl
  rw [h0]
  simp

/-- C2: in a call that completes a batch with the marker option set, when every
stored structure renders, the painter receives, among its calls, `SetIndex 1`,
the draw of the first stored structure, `SetIndex 2`, the draw of the second one,
and so on in the order of submission, then `WriteImage`: one `WriteImage`, after
the draw of the last structure. -/
theorem C2_render_order_single_emission (env : Env) (self : PNG2Format) (pConv : OBConversion)
    (hcomp : pConv.last = true ∨ nomore (accumulate env self pConv).1 = true)
    (hm : ((accumulate env self pConv).2.IsOption "pngwritechemobject").isSome = true)
    (hb : (accumulate env self pConv).1.objects.length < 2 ^ 31)
    (hall : ∀ pOb ∈ (accumulate env self pConv).1.objects, renders env pOb = true) :
    ∃ calls : List PainterCall,
      (WriteChemObject env self pConv).2.1.cairopainter = self.cairopainter ++ calls ∧
      calls.filter isOrderCall =
        seqCalls env (accumulate env self pConv).2 (accumulate env self pConv).1.objects 0 ++
          [PainterCall.WriteImage] ∧
      calls.count PainterCall.WriteImage = 1 := by
  obtain ⟨calls, h1, h2, h3, _⟩ := completing_all_render env self pConv hcomp hm hb hall
  exact ⟨calls, h1, h2, h3⟩

/-- C3: in a call that completes a batch with the marker option set, if the
stored structure at position `k` does not render, the call returns false, the
painter receives no `WriteImage`, no cell index from `k` on is set, and fewer
than `k` structures are drawn. -/
theorem C3_failed_batch_emits_nothing (env : Env) (self : PNG2Format) (pConv : OBConversion)
    (k : Nat) (x : OBBase)
    (hcomp : pConv.last = true ∨ nomore (accumulate env self pConv).1 = true)
    (hm : ((accumulate env self pConv).2.IsOption "pngwritechemobject").isSome = true)
    (hb : (accumulate env self pConv).1.objects.length < 2 ^ 31)
    (hk : 1 ≤ k) (hx : (accumulate env self pConv).1.objects.get? (k - 1) = some x)
    (hfail : renders env x = false) :
    (WriteChemObject env self pConv).1 = false ∧
    ∃ calls : List PainterCall,
      (WriteChemObject env self pConv).2.1.cairopainter = self.cairopainter ++ calls ∧
      PainterCall.WriteImage ∉ calls ∧
      (∀ i, PainterCall.SetIndex i ∈ calls → i < k) ∧
      (calls.filter isDraw).length < k := by
  obtain ⟨h1, h2⟩ := completing_call env self pConv hcomp hm hb
  obtain ⟨f1, f2, f3⟩ := batchCalls_fail env (tableAtFlush (accumulate env self pConv).1).1
    (tableAtFlush (accumulate env self pConv).1).2 (accumulate env self pConv).2
    (accumulate env self pConv).1.objects.length (accumulate env self pConv).1.objects 0
    (k - 1) x hx hfail (by omega)
  constructor
  · rw [h1]
    have hmem : x ∈ (accumulate env self pConv).1.objects := List.get?_mem hx
    have : (accumulate env self pConv).1.objects.all (renders env) = false := by
      rw [List.all_eq_false]
      exact ⟨x, hmem, by simp [hfail]⟩
    rw [this]
    rfl
  · refine ⟨_, h2, f1, ?_, by omega⟩
    intro i hi
    have := f2 i hi
    omega


/-- Witness of C2: a second and last molecule completes a batch of two. -/
theorem C2_render_order_single_emission_witness :
    (convSecond true (OBBase.mol molA)).last = true ∧
    ((accumulate envPlain (formatWith 1 0 0)
      (convSecond true (OBBase.mol molA))).2.IsOption "pngwritechemobject").isSome = true ∧
    (accumulate envPlain (formatWith 1 0 0)
      (convSecond true (OBBase.mol molA))).1.objects.length = 2 ∧
    (∀ pOb ∈ (accumulate envPlain (formatWith 1 0 0)
      (convSecond true (OBBase.mol molA))).1.objects, renders envPlain pOb = true) ∧
    ∃ calls : List PainterCall,
      (WriteChemObject envPlain (formatWith 1 0 0)
        (convSecond true (OBBase.mol molA))).2.1.cairopainter =
          (formatWith 1 0 0).cairopainter ++ calls ∧
      calls.filter isOrderCall =
        seqCalls envPlain (accumulate envPlain (formatWith 1 0 0)
            (convSecond true (OBBase.mol molA))).2
          (accumulate envPlain (formatWith 1 0 0)
            (convSecond true (OBBase.mol molA))).1.objects 0 ++ [PainterCall.WriteImage] ∧
      calls.count PainterCall.WriteImage = 1 :=
  ⟨rfl, by decide, by decide, by decide,
    C2_render_order_single_emission envPlain (formatWith 1 0 0)
      (convSecond true (OBBase.mol molA)) (Or.inl rfl) (by decide) (by decide) (by decide)⟩

/-- Witness of C3: the second and last molecule of a batch of two has no
coordinates and no generator is installed. -/
theorem C3_failed_batch_emits_nothing_witness :
    (convSecond true (OBBase.mol molFlat)).last = true ∧
    (accumulate envPlain (formatWith 1 0 0)
      (convSecond true (OBBase.mol molFlat))).1.objects.get? (2 - 1)
        = some (OBBase.mol molFlat) ∧
    renders envPlain (OBBase.mol molFlat) = false ∧
    (WriteChemObject envPlain (formatWith 1 0 0)
      (convSecond true (OBBase.mol molFlat))).1 = false ∧
    ∃ calls : List PainterCall,
      (WriteChemObject envPlain (formatWith 1 0 0)
        (convSecond true (OBBase.mol molFlat))).2.1.cairopainter =
          (formatWith 1 0 0).cairopainter ++ calls ∧
      PainterCall.WriteImage ∉ calls ∧
      (∀ i, PainterCall.SetIndex i ∈ calls → i < (2 : Nat)) ∧
      (calls.filter isDraw).length < 2 :=
  ⟨rfl, by decide, by decide,
    C3_failed_batch_emits_nothing envPlain (formatWith 1 0 0)
      (convSecond true (OBBase.mol molFlat)) 2 (OBBase.mol molFlat) (Or.inl rfl) (by decide)
      (by decide) (by decide) (by decide) (by decide)⟩

/-- C6, as the claim states it, fails: one molecule submitted as the first and
last record, no option given, makes the painter receive `SetTableSize 0 0` and
no `SetTableSize 1 1`. -/
theorem C6_counterexample :
    (WriteChemObject envPlain PNG2Format.init
      (convOf [] 1 true (OBBase.mol molA))).2.1.cairopainter =
      [PainterCall.SetTitle "A", PainterCall.SetWidth 300, PainterCall.SetHeight 300,
        PainterCall.SetTableSize 0 0, PainterCall.SetIndex 1, PainterCall.SetPenWidth 1,
        PainterCall.DrawMolecule molA [DepictOption.drawTermC, DepictOption.internalColor] false,
        PainterCall.WriteImage] ∧
    PainterCall.SetTableSize 1 1 ∉
      (WriteChemObject envPlain PNG2Format.init
        (convOf [] 1 true (OBBase.mol molA))).2.1.cairopainter := by
  with_unfolding_all decide

/-- C6, amended: when a batch of exactly one structure, started at output index
at most 1 with neither `r` nor `c` given and `_nrows`, `_ncols` both 0, is
flushed and the structure renders, the layout block is skipped and the values
handed to `SetTableSize` are rows = 0, cols = 0. -/
theorem C6_single_structure_table (env : Env) (self : PNG2Format) (pConv : OBConversion)
    (hi : pConv.outputIndex ≤ 1)
    (hr : pConv.IsOption "r" = none) (hc : pConv.IsOption "c" = none)
    (hr0 : self.nrows = 0) (hc0 : self.ncols = 0)
    (hcomp : pConv.last = true ∨ nomore (accumulate env self pConv).1 = true)
    (hall : ∀ pOb ∈ (accumulate env self pConv).1.objects, renders env pOb = true) :
    (accumulate env self pConv).1.objects.length = 1 ∧
    tableAtFlush (accumulate env self pConv).1 = (0, 0) ∧
    ∃ calls : List PainterCall,
      (WriteChemObject env self pConv).2.1.cairopainter = self.cairopainter ++ calls ∧
      PainterCall.SetTableSize 0 0 ∈ calls ∧
      ∀ r c, PainterCall.SetTableSize r c ∈ calls → r = 0 ∧ c = 0 := by
  have hN := IsOption_AddOption pConv "N" (by decide)
  have hr' := IsOption_AddOption pConv "r" (by decide)
  have hc' := IsOption_AddOption pConv "c" (by decide)
  have hobj : (accumulate env self pConv).1.objects =
      [env.doOutputOptions pConv.chemObject (pConv.AddOption "pngwritechemobject")] := by
    cases hNv : pConv.IsOption "N" <;>
      simp [accumulate, startBatch, hi, hN, hr', hc', hr, hc, hNv]
  have hrows : (accumulate env self pConv).1.nrows = 0 := by
    cases hNv : pConv.IsOption "N" <;>
      simp [accumulate, startBatch, hi, hN, hr', hc', hr, hc, hNv, hr0]
  have hcols : (accumulate env self pConv).1.ncols = 0 := by
    cases hNv : pConv.IsOption "N" <;>
      simp [accumulate, startBatch, hi, hN, hr', hc', hr, hc, hNv, hc0]
  have hconv : (accumulate env self pConv).2 = pConv.AddOption "pngwritechemobject" := by
    simp [accumulate, hi, startBatch]
  have hlen : (accumulate env self pConv).1.objects.length = 1 := by
    rw [hobj]; rfl
  have hw1 : wrap32 1 = 1 := by
    unfold wrap32
    norm_num
  have htab : tableAtFlush (accumulate env self pConv).1 = (0, 0) := by
    unfold tableAtFlush
    rw [hlen, hrows, hcols]
    simp only [Nat.cast_one, hw1]
    exact resolveTable_one
  have hm := accumulate_marked env self pConv (Or.inl hi)
  obtain ⟨_, h2⟩ := completing_call env self pConv hcomp hm (by omega)
  have hren : renders env
      (env.doOutputOptions pConv.chemObject (pConv.AddOption "pngwritechemobject")) = true := by
    apply hall
    rw [hobj]
    exact List.mem_singleton_self _
  refine ⟨hlen, htab, _, h2, ?_, ?_⟩
  · rw [htab, hobj, hconv]
    cases hob : env.doOutputOptions pConv.chemObject (pConv.AddOption "pngwritechemobject") with
    | other t => rw [hob] at hren; simp [renders] at hren
    | mol pmol =>
      rw [hob] at hren
      cases hg : generateCoords env pmol with
      | error e => simp [renders, hg] at hren
      | ok w => simp [batchCalls, renders, objectCalls, hg, paintCalls]
  · intro r c
    rw [htab, hobj, hconv]
    cases hob : env.doOutputOptions pConv.chemObject (pConv.AddOption "pngwritechemobject") with
    | other t => rw [hob] at hren; simp [renders] at hren
    | mol pmol =>
      rw [hob] at hren
      cases hg : generateCoords env pmol with
      | error e => simp [renders, hg] at hren
      | ok w =>
        simp only [batchCalls, renders, objectCalls, hg, paintCalls]
        cases hA : (pConv.AddOption "pngwritechemobject").last <;>
          simp

/-- Witness of C6: one molecule submitted as the first and last record. -/
theorem C6_single_structure_table_witness :
    (convOf [] 1 true (OBBase.mol molA)).outputIndex ≤ 1 ∧
    (accumulate envPlain PNG2Format.init (convOf [] 1 true (OBBase.mol molA))).1.objects.length
      = 1 ∧
    tableAtFlush (accumulate envPlain PNG2Format.init (convOf [] 1 true (OBBase.mol molA))).1
      = (0, 0) ∧
    ∃ calls : List PainterCall,
      (WriteChemObject envPlain PNG2Format.init
        (convOf [] 1 true (OBBase.mol molA))).2.1.cairopainter =
          PNG2Format.init.cairopainter ++ calls ∧
      PainterCall.SetTableSize 0 0 ∈ calls ∧
      ∀ r c, PainterCall.SetTableSize r c ∈ calls → r = 0 ∧ c = 0 :=
  ⟨by decide,
    C6_single_structure_table envPlain PNG2Format.init (convOf [] 1 true (OBBase.mol molA))
      (by decide) (by decide) (by decide) rfl rfl (Or.inl rfl) (by decide)⟩
/-! ## Streams of records -/

theorem startBatch_nmax (self : PNG2Format) (pConv : OBConversion) :
    (startBatch self pConv).1.nmax = capOf pConv.options := by
  have hN := IsOption_AddOption pConv "N" (by decide)
  have hr := IsOption_AddOption pConv "r" (by decide)
  have hc := IsOption_AddOption pConv "c" (by decide)
  have hN' := IsOption_AddOption (convOf pConv.options 1 false (OBBase.other "")) "N" (by decide)
  have hr' := IsOption_AddOption (convOf pConv.options 1 false (OBBase.other "")) "r" (by decide)
  have hc' := IsOption_AddOption (convOf pConv.options 1 false (OBBase.other "")) "c" (by decide)
  have eN : (convOf pConv.options 1 false (OBBase.other "")).IsOption "N" = pConv.IsOption "N" :=
    rfl
  have er : (convOf pConv.options 1 false (OBBase.other "")).IsOption "r" = pConv.IsOption "r" :=
    rfl
  have ec : (convOf pConv.options 1 false (OBBase.other "")).IsOption "c" = pConv.IsOption "c" :=
    rfl
  cases hNv : pConv.IsOption "N" <;> cases hrv : pConv.IsOption "r" <;>
    cases hcv : pConv.IsOption "c" <;>
    simp [capOf, startBatch, hN, hr, hc, hN', hr', hc', eN, er, ec, hNv, hrv, hcv,
      PNG2Format.init]

/-- A call that does not complete the batch returns true and leaves the format
and the controller as the accumulation left them. -/
theorem pending_call (env : Env) (self : PNG2Format) (pConv : OBConversion)
    (hl : pConv.last = false) (hn : nomore (accumulate env self pConv).1 = false) :
    WriteChemObject env self pConv =
      (true, (accumulate env self pConv).1, (accumulate env self pConv).2) := by
  unfold WriteChemObject
  simp [accumulate_last, hl, hn]

theorem accumulate_later (env : Env) (self : PNG2Format) (pConv : OBConversion)
    (hi : 1 < pConv.outputIndex) :
    accumulate env self pConv =
      ({ self with objects := self.objects ++ [env.doOutputOptions pConv.chemObject pConv] },
        pConv) := by
  unfold accumulate
  have : ¬ pConv.outputIndex ≤ 1 := by omega
  simp [this]

theorem accumulate_first (env : Env) (self : PNG2Format) (pConv : OBConversion)
    (hi : pConv.outputIndex ≤ 1) :
    (accumulate env self pConv).1.objects =
      [env.doOutputOptions pConv.chemObject (pConv.AddOption "pngwritechemobject")] ∧
    (accumulate env self pConv).1.nmax = capOf pConv.options ∧
    (accumulate env self pConv).2 = pConv.AddOption "pngwritechemobject" := by
  obtain ⟨h1, _, h3⟩ := startBatch_facts self pConv
  unfold accumulate
  simp only [hi, if_true, h1, h3, List.nil_append]
  exact ⟨trivial, startBatch_nmax self pConv, trivial⟩

theorem nomore_iff (self : PNG2Format) (m : Nat) (hm1 : 1 ≤ m) (hmb : m < 2 ^ 31)
    (hmax : self.nmax = (m : Int)) : nomore self = decide (self.objects.length = m) := by
  unfold nomore
  have h0 : self.nmax ≠ 0 := by omega
  have hs : toSizeT self.nmax = (m : Int) := by
    rw [hmax]
    exact toSizeT_of_nonneg _ (by omega) (by omega)
  rw [hs]
  simp [h0]

theorem feed_append (env : Env) (rs1 rs2 : List Record) :
    ∀ (self : PNG2Format) (options : List (String × String)),
      feed env self options (rs1 ++ rs2) =
        ((feed env self options rs1).1 ++
            (feed env (feed env self options rs1).2.1 (feed env self options rs1).2.2 rs2).1,
          (feed env (feed env self options rs1).2.1 (feed env self options rs1).2.2 rs2).2) := by
  induction rs1 with
  | nil => intro self options; simp [feed]
  | cons r rs ih =>
    intro self options
    rw [List.cons_append]
    simp only [feed]
    rw [ih]
    simp only [List.cons_append]

theorem stream_append (obs : List OBBase) (x : OBBase) :
    ∀ start : Int, stream (obs ++ [x]) start =
      stream obs start ++ [{ index := start + obs.length, last := false, pOb := x }] := by
  induction obs with
  | nil => intro start; simp [stream]
  | cons o rest ih =>
    intro start
    have hidx : start + 1 + (rest.length : Int) = start + ((o :: rest).length : Nat) := by
      simp only [List.length_cons]
      push_cast
      ring
    rw [List.cons_append]
    simp only [stream]
    rw [ih, hidx, List.cons_append]

theorem convOf_options (options : List (String × String)) (i : Int) (l : Bool) (pOb : OBBase) :
    (convOf options i l pOb).options = options := rfl

theorem convOf_outputIndex (options : List (String × String)) (i : Int) (l : Bool)
    (pOb : OBBase) : (convOf options i l pOb).outputIndex = i := rfl

theorem convOf_last (options : List (String × String)) (i : Int) (l : Bool) (pOb : OBBase) :
    (convOf options i l pOb).last = l := rfl

theorem convOf_chemObject (options : List (String × String)) (i : Int) (l : Bool)
    (pOb : OBBase) : (convOf options i l pOb).chemObject = pOb := rfl

/-- Records after the first one, while the maximum `m` is out of reach: every
call returns true, the objects are appended, nothing else changes. -/
theorem feed_pending (env : Env) (m : Nat) (hm1 : 1 ≤ m) (hmb : m < 2 ^ 31)
    (obs : List OBBase) :
    ∀ (i : Int) (self : PNG2Format) (options : List (String × String)),
      2 ≤ i → self.nmax = (m : Int) → self.objects.length + obs.length < m →
      (∀ o ∈ obs, ∀ c, renders env (env.doOutputOptions o c) = true) →
      (∀ b ∈ self.objects, renders env b = true) →
      (feed env self options (stream obs i)).1 = List.replicate obs.length true ∧
      (feed env self options (stream obs i)).2.1.nmax = (m : Int) ∧
      (feed env self options (stream obs i)).2.1.objects.length =
        self.objects.length + obs.length ∧
      (feed env self options (stream obs i)).2.1.cairopainter = self.cairopainter ∧
      (feed env self options (stream obs i)).2.2 = options ∧
      (∀ b ∈ (feed env self options (stream obs i)).2.1.objects, renders env b = true) := by
  induction obs with
  | nil =>
    intro i self options _ hmax _ _ hself
    simp [stream, feed, hmax]
    exact hself
  | cons o rest ih =>
    intro i self options hi hmax hlen hobs hself
    simp only [List.length_cons] at hlen
    have hacc := accumulate_later env self (convOf options i false o) (by simpa [convOf] using hi)
    have hnm : nomore (accumulate env self (convOf options i false o)).1 = false := by
      rw [nomore_iff _ m hm1 hmb (by rw [hacc]; exact hmax), hacc]
      simp
      omega
    have hcall := pending_call env self (convOf options i false o) rfl hnm
    rw [hacc] at hcall
    have hnext := ih (i + 1)
      { self with objects := self.objects ++ [env.doOutputOptions o (convOf options i false o)] }
      options (by omega) hmax (by simp; omega)
      (fun q hq c => hobs q (List.mem_cons_of_mem _ hq) c)
      (by
        intro b hb
        simp only [List.mem_append, List.mem_singleton] at hb
        rcases hb with hb | hb
        · exact hself b hb
        · rw [hb]; exact hobs o (List.mem_cons_self _ _) _)
    obtain ⟨n1, n2, n3, n4, n5, n6⟩ := hnext
    simp only [stream, feed, hcall, convOf_options, convOf_chemObject]
    refine ⟨?_, n2, ?_, n4, n5, n6⟩
    · rw [n1]
      simp [List.replicate_succ]
    · rw [n3]
      simp
      omega

/-- The records before the one that reaches the maximum `m`, submitted with the
output indices 1, 2, ...: every call returns true and the painter is not used. -/
theorem feed_prefix (env : Env) (self : PNG2Format) (options : List (String × String))
    (pre : List OBBase) (m : Nat) (hm : pre.length < m) (hmb : m < 2 ^ 31)
    (hcap : capOf options = (m : Int))
    (hall : ∀ o ∈ pre, ∀ c, renders env (env.doOutputOptions o c) = true) :
    (feed env self options (stream pre 1)).1 = List.replicate pre.length true ∧
    (feed env self options (stream pre 1)).2.1.cairopainter = self.cairopainter ∧
    (pre ≠ [] →
      (feed env self options (stream pre 1)).2.1.nmax = (m : Int) ∧
      (feed env self options (stream pre 1)).2.1.objects.length = pre.length ∧
      (feed env self options (stream pre 1)).2.2 = ("pngwritechemobject", "") :: options ∧
      (∀ b ∈ (feed env self options (stream pre 1)).2.1.objects, renders env b = true)) := by
  cases pre with
  | nil => simp [stream, feed]
  | cons o mid =>
    simp only [List.length_cons] at hm
    obtain ⟨a1, a2, a3⟩ := accumulate_first env self (convOf options 1 false o) (le_refl 1)
    have a4 := accumulate_painter env self (convOf options 1 false o)
    have hmax : (accumulate env self (convOf options 1 false o)).1.nmax = (m : Int) := by
      rw [a2]; exact hcap
    have hnm : nomore (accumulate env self (convOf options 1 false o)).1 = false := by
      rw [nomore_iff _ m (by omega) hmb hmax, a1]
      simp
      omega
    have hcall := pending_call env self (convOf options 1 false o) rfl hnm
    have hopt : ((convOf options 1 false o).AddOption "pngwritechemobject").options =
        ("pngwritechemobject", "") :: options := rfl
    obtain ⟨n1, n2, n3, n4, n5, n6⟩ := feed_pending env m (by omega) hmb mid 2
      (accumulate env self (convOf options 1 false o)).1 (("pngwritechemobject", "") :: options)
      (le_refl 2) hmax (by rw [a1]; simp; omega)
      (fun q hq c => hall q (List.mem_cons_of_mem _ hq) c)
      (by
        intro b hb
        rw [a1] at hb
        rw [List.mem_singleton] at hb
        rw [hb]
        exact hall o (List.mem_cons_self _ _) _)
    have e12 : (1 : Int) + 1 = 2 := rfl
    simp only [stream, feed, hcall, a3, hopt, e12]
    refine ⟨?_, ?_, ?_⟩
    · rw [n1]
      simp [List.replicate_succ]
    · rw [n4, a4]
    · intro _
      refine ⟨n2, ?_, n5, n6⟩
      rw [n3, a1]
      simp
      omega

/-- C1: with a maximum of `m ≥ 1` in effect for the batch, `m` records submitted
with the output indices 1, ..., `m` and the last flag false, all of which
render: the first `m - 1` calls return true and make no call on the painter; the
call for record `m` returns false and makes the painter draw `m` structures and
write one image. -/
theorem C1_early_stop_at_cap (env : Env) (self : PNG2Format) (options : List (String × String))
    (pre : List OBBase) (x : OBBase) (hb : pre.length + 1 < 2 ^ 31)
    (hcap : capOf options = ((pre.length + 1 : Nat) : Int))
    (hall : ∀ o ∈ pre ++ [x], ∀ c, renders env (env.doOutputOptions o c) = true) :
    (feed env self options (stream pre 1)).1 = List.replicate pre.length true ∧
    (feed env self options (stream pre 1)).2.1.cairopainter = self.cairopainter ∧
    (feed env self options (stream (pre ++ [x]) 1)).1 = List.replicate pre.length true ++ [false] ∧
    ∃ calls : List PainterCall,
      (feed env self options (stream (pre ++ [x]) 1)).2.1.cairopainter =
        self.cairopainter ++ calls ∧
      (calls.filter isDraw).length = pre.length + 1 ∧
      calls.count PainterCall.WriteImage = 1 := by
  have hpre : ∀ o ∈ pre, ∀ c, renders env (env.doOutputOptions o c) = true :=
    fun o ho c => hall o (List.mem_append_left _ ho) c
  have hx : ∀ c, renders env (env.doOutputOptions x c) = true :=
    fun c => hall x (List.mem_append_right _ (List.mem_singleton_self x)) c
  obtain ⟨p1, p2, p3⟩ := feed_prefix env self options pre (pre.length + 1) (by omega) hb hcap hpre
  refine ⟨p1, p2, ?_⟩
  rw [stream_append, feed_append]
  simp only [feed, p1]
  have key : ∀ (s : PNG2Format) (pConv : OBConversion),
      (accumulate env s pConv).1.nmax = ((pre.length + 1 : Nat) : Int) →
      (accumulate env s pConv).1.objects.length = pre.length + 1 →
      ((accumulate env s pConv).2.IsOption "pngwritechemobject").isSome = true →
      (∀ b ∈ (accumulate env s pConv).1.objects, renders env b = true) →
      (WriteChemObject env s pConv).1 = false ∧
      ∃ calls : List PainterCall,
        (WriteChemObject env s pConv).2.1.cairopainter = s.cairopainter ++ calls ∧
        (calls.filter isDraw).length = pre.length + 1 ∧
        calls.count PainterCall.WriteImage = 1 := by
    intro s pConv hmax hlen hmark hren
    have hnm : nomore (accumulate env s pConv).1 = true := by
      rw [nomore_iff _ (pre.length + 1) (by omega) hb hmax]
      simp [hlen]
    obtain ⟨c1, _⟩ := completing_call env s pConv (Or.inr hnm) hmark (by omega)
    obtain ⟨calls, d1, _, d3, d4⟩ :=
      completing_all_render env s pConv (Or.inr hnm) hmark (by omega) hren
    refine ⟨?_, calls, d1, ?_, d3⟩
    · rw [c1, hnm]; simp
    · rw [d4, hlen]
  cases hp : pre with
  | nil =>
    subst hp
    obtain ⟨a1, a2, _⟩ := accumulate_first env self (convOf options 1 false x) (le_refl 1)
    have hm := accumulate_marked env self (convOf options 1 false x) (Or.inl (le_refl 1))
    obtain ⟨k1, k2⟩ := key self (convOf options 1 false x) (by rw [a2]; exact hcap)
      (by rw [a1]; rfl) hm
      (by
        intro b hb
        rw [a1, List.mem_singleton] at hb
        rw [hb]
        exact hx _)
    simp only [stream, feed, List.length_nil, Nat.cast_zero, add_zero]
    exact ⟨by rw [k1], k2⟩
  | cons o mid =>
    rw [← hp]
    obtain ⟨q1, q2, q3, q4⟩ := p3 (by rw [hp]; simp)
    have hidx : 1 < (convOf (feed env self options (stream pre 1)).2.2
        (1 + (pre.length : Int)) false x).outputIndex := by
      show 1 < 1 + (pre.length : Int)
      rw [hp]
      simp only [List.length_cons]
      push_cast
      omega
    have hacc := accumulate_later env (feed env self options (stream pre 1)).2.1
      (convOf (feed env self options (stream pre 1)).2.2 (1 + (pre.length : Int)) false x) hidx
    obtain ⟨k1, calls, k2, k3, k4⟩ := key (feed env self options (stream pre 1)).2.1
      (convOf (feed env self options (stream pre 1)).2.2 (1 + (pre.length : Int)) false x)
      (by rw [hacc]; exact q1)
      (by rw [hacc]; simp [q2])
      (by rw [hacc, q3]; rfl)
      (by
        rw [hacc]
        intro b hb
        simp only [List.mem_append, List.mem_singleton] at hb
        rcases hb with hb | hb
        · exact q4 b hb
        · rw [hb]; exact hx _)
    refine ⟨by rw [k1], calls, ?_, k3, k4⟩
    rw [k2, p2]

/-- Witness of C1: the options `r=2`, `c=3` give a maximum of 6; six molecules
are submitted. -/
theorem C1_early_stop_at_cap_witness :
    capOf [("r", "2"), ("c", "3")] = ((5 + 1 : Nat) : Int) ∧
    (feed envPlain PNG2Format.init [("r", "2"), ("c", "3")]
      (stream (List.replicate 5 (OBBase.mol molA)) 1)).1 = List.replicate 5 true ∧
    (feed envPlain PNG2Format.init [("r", "2"), ("c", "3")]
      (stream (List.replicate 5 (OBBase.mol molA)) 1)).2.1.cairopainter = [] ∧
    (feed envPlain PNG2Format.init [("r", "2"), ("c", "3")]
      (stream (List.replicate 5 (OBBase.mol molA) ++ [OBBase.mol molA]) 1)).1 =
        List.replicate 5 true ++ [false] ∧
    ∃ calls : List PainterCall,
      (feed envPlain PNG2Format.init [("r", "2"), ("c", "3")]
        (stream (List.replicate 5 (OBBase.mol molA) ++ [OBBase.mol molA]) 1)).2.1.cairopainter =
          [] ++ calls ∧
      (calls.filter isDraw).length = 5 + 1 ∧
      calls.count PainterCall.WriteImage = 1 :=
  ⟨by with_unfolding_all decide,
    C1_early_stop_at_cap envPlain PNG2Format.init [("r", "2"), ("c", "3")]
      (List.replicate 5 (OBBase.mol molA)) (OBBase.mol molA) (by decide)
      (by with_unfolding_all decide)
      (by
        intro o ho c
        have ho' : o = OBBase.mol molA := by
          simp only [List.mem_append, List.mem_replicate, List.mem_singleton] at ho
          rcases ho with ho | ho
          · exact ho.2
          · exact ho
        rw [ho']
        exact (by decide : renders envPlain (OBBase.mol molA) = true))⟩

/-! ## Coverage and shape of the derived grid -/

theorem le_ceil_mul (n k : Int) (hk : 0 < k) : n ≤ ⌈(n : ℚ) / (k : ℚ)⌉ * k := by
  rw [← ceil_div_eq n k hk]
  have := Int.lt_ediv_add_one_mul_self (n - 1) hk
  omega

/-- C14: for a batch of `count ≥ 1` structures, whenever a dimension is derived
at flush (neither constraint in effect and `count ≥ 2`, or exactly one positive
constraint in effect), the resolved grid has at least `count` cells. -/
theorem C14_auto_grid_covers_batch (self : PNG2Format) (h1 : 1 ≤ self.objects.length)
    (hb : self.objects.length < 2 ^ 31)
    (h : (self.nrows = 0 ∧ self.ncols = 0 ∧ 2 ≤ self.objects.length) ∨
      (0 < self.nrows ∧ self.ncols = 0) ∨ (self.nrows = 0 ∧ 0 < self.ncols)) :
    (self.objects.length : Int) ≤ (tableAtFlush self).1 * (tableAtFlush self).2 := by
  have hw : wrap32 (self.objects.length : Int) = (self.objects.length : Int) :=
    wrap32_of_range _ (by omega) (by omega)
  rcases h with ⟨hr, hc, h2⟩ | ⟨hr, hc⟩ | ⟨hr, hc⟩
  · have hs := ceilSqrtNat_spec self.objects.length h1
    have ht : tableAtFlush self = (⌈(self.objects.length : ℚ) /
        ((ceilSqrtNat self.objects.length : Int) : ℚ)⌉,
        (ceilSqrtNat self.objects.length : Int)) := by
      unfold tableAtFlush
      rw [hr, hc, hw]
      exact resolveTable_square _ h2 hb
    rw [ht]
    have hle := le_ceil_mul (self.objects.length : Int) (ceilSqrtNat self.objects.length : Int)
      (by omega)
    rw [Int.cast_natCast] at hle
    exact hle
  · have ht : tableAtFlush self =
        (self.nrows, ⌈((self.objects.length : Int) : ℚ) / (self.nrows : ℚ)⌉) := by
      unfold tableAtFlush
      rw [hc, hw]
      exact resolveTable_rows _ _ (by omega) (by omega) hr
    rw [ht]
    have := le_ceil_mul (self.objects.length : Int) self.nrows hr
    simp only
    linarith [mul_comm self.nrows ⌈((self.objects.length : Int) : ℚ) / (self.nrows : ℚ)⌉]
  · have ht : tableAtFlush self =
        (⌈((self.objects.length : Int) : ℚ) / (self.ncols : ℚ)⌉, self.ncols) := by
      unfold tableAtFlush
      rw [hr, hw]
      exact resolveTable_cols _ _ (by omega) (by omega) hc
    rw [ht]
    exact le_ceil_mul (self.objects.length : Int) self.ncols hc

/-- Witness of C14: seven structures with no constraint, in two rows, and in three
columns. -/
theorem C14_auto_grid_covers_batch_witness :
    ((formatWith 7 0 0).objects.length : Int) ≤
      (tableAtFlush (formatWith 7 0 0)).1 * (tableAtFlush (formatWith 7 0 0)).2 ∧
    ((formatWith 7 2 0).objects.length : Int) ≤
      (tableAtFlush (formatWith 7 2 0)).1 * (tableAtFlush (formatWith 7 2 0)).2 ∧
    ((formatWith 7 0 3).objects.length : Int) ≤
      (tableAtFlush (formatWith 7 0 3)).1 * (tableAtFlush (formatWith 7 0 3)).2 :=
  ⟨C14_auto_grid_covers_batch (formatWith 7 0 0) (by decide) (by decide)
      (Or.inl ⟨rfl, rfl, by decide⟩),
    C14_auto_grid_covers_batch (formatWith 7 2 0) (by decide) (by decide)
      (Or.inr (Or.inl ⟨by decide, rfl⟩)),
    C14_auto_grid_covers_batch (formatWith 7 0 3) (by decide) (by decide)
      (Or.inr (Or.inr ⟨rfl, by decide⟩))⟩

/-- C18: with neither constraint in effect and `count ≥ 2`, the grid resolved at
flush satisfies `rows ≤ cols ≤ rows + 1` and `(rows - 1) * cols < count`. -/
theorem C18_square_grid_tight (self : PNG2Format) (hr : self.nrows = 0) (hc : self.ncols = 0)
    (h2 : 2 ≤ self.objects.length) (hb : self.objects.length < 2 ^ 31) :
    (tableAtFlush self).1 ≤ (tableAtFlush self).2 ∧
    (tableAtFlush self).2 ≤ (tableAtFlush self).1 + 1 ∧
    ((tableAtFlush self).1 - 1) * (tableAtFlush self).2 < (self.objects.length : Int) := by
  have hw : wrap32 (self.objects.length : Int) = (self.objects.length : Int) :=
    wrap32_of_range _ (by omega) (by omega)
  have hs := ceilSqrtNat_spec self.objects.length (by omega)
  have ht : tableAtFlush self = (⌈(self.objects.length : ℚ) /
      ((ceilSqrtNat self.objects.length : Int) : ℚ)⌉,
      (ceilSqrtNat self.objects.length : Int)) := by
    unfold tableAtFlush
    rw [hr, hc, hw]
    exact resolveTable_square _ h2 hb
  rw [ht]
  obtain ⟨s1, s2, s3, _⟩ := hs
  generalize ceilSqrtNat self.objects.length = c at s1 s2 s3 ⊢
  generalize self.objects.length = n at s1 s2 h2 ⊢
  have hcpos : (0 : Int) < (c : Int) := by omega
  have hq : ⌈(n : ℚ) / ((c : Int) : ℚ)⌉ = ((n : Int) - 1) / (c : Int) + 1 := by
    have := ceil_div_eq (n : Int) (c : Int) hcpos
    rw [this]
    norm_cast
  simp only
  rw [hq]
  have e1 : ((n : Int) - 1) / (c : Int) * (c : Int) ≤ (n : Int) - 1 :=
    Int.ediv_mul_le _ (ne_of_gt hcpos)
  have e2 : (n : Int) - 1 < (((n : Int) - 1) / (c : Int) + 1) * (c : Int) :=
    Int.lt_ediv_add_one_mul_self _ hcpos
  have s1' : ((c : Int) - 1) * ((c : Int) - 1) < (n : Int) := by
    have : ((c - 1 : Nat) : Int) = (c : Int) - 1 := by omega
    rw [← this]
    exact_mod_cast s1
  have s2' : (n : Int) ≤ (c : Int) * (c : Int) := by exact_mod_cast s2
  generalize ((n : Int) - 1) / (c : Int) = q at e1 e2 ⊢
  refine ⟨?_, ?_, ?_⟩
  · by_contra hcon
    have : (c : Int) ≤ q := by omega
    nlinarith
  · by_contra hcon
    have : q + 3 ≤ (c : Int) := by omega
    nlinarith
  · have : q + 1 - 1 = q := by ring
    rw [this]
    omega

/-- Witness of C18: seven structures, no constraint. -/
theorem C18_square_grid_tight_witness :
    (tableAtFlush (formatWith 7 0 0)).1 ≤ (tableAtFlush (formatWith 7 0 0)).2 ∧
    (tableAtFlush (formatWith 7 0 0)).2 ≤ (tableAtFlush (formatWith 7 0 0)).1 + 1 ∧
    ((tableAtFlush (formatWith 7 0 0)).1 - 1) * (tableAtFlush (formatWith 7 0 0)).2 <
      ((formatWith 7 0 0).objects.length : Int) :=
  C18_square_grid_tight (formatWith 7 0 0) rfl rfl (by decide) (by decide)

/-! ## Title, pending calls and the return value -/

/-- C17: whatever the options, `d` among them or not, the only title
`WriteMolecule` passes to the painter is the title of the molecule, and it
passes it whenever it succeeds; setting option `d` changes none of the painter
calls. -/
theorem C17_option_d_inert (env : Env) (self : PNG2Format) (pmol : OBMol)
    (pConv : OBConversion) :
    (∃ calls : List PainterCall,
      (WriteMolecule env self (OBBase.mol pmol) pConv).2.1.cairopainter =
        self.cairopainter ++ calls ∧
      (∀ t, PainterCall.SetTitle t ∈ calls → t = pmol.title) ∧
      ((WriteMolecule env self (OBBase.mol pmol) pConv).1 = true →
        PainterCall.SetTitle pmol.title ∈ calls)) ∧
    ∀ text : String,
      (WriteMolecule env self (OBBase.mol pmol)
        { pConv with options := ("d", text) :: pConv.options }).2.1.cairopainter =
      (WriteMolecule env self (OBBase.mol pmol) pConv).2.1.cairopainter := by
  constructor
  · cases hg : generateCoords env pmol with
    | error e =>
      refine ⟨[], ?_, ?_, ?_⟩
      · simp only [WriteMolecule, hg]
        split_ifs <;> simp
      · intro t ht
        simp at ht
      · simp [WriteMolecule, hg]
    | ok w =>
      refine ⟨paintCalls
        (if (pConv.IsOption "pngwritechemobject").isNone then 1 else self.nrows)
        (if (pConv.IsOption "pngwritechemobject").isNone then 1 else self.ncols) pmol w env
        (if (pConv.IsOption "pngwritechemobject").isNone then
          { pConv with last := true, outputIndex := 1 } else pConv), ?_, ?_, ?_⟩
      · simp only [WriteMolecule, hg]
        split_ifs <;> rfl
      · intro t ht
        simp only [paintCalls] at ht
        split_ifs at ht <;> simp at ht <;> exact ht
      · intro _
        simp only [paintCalls]
        split_ifs <;> simp
  · intro text
    have hl : ∀ name : String, (name == "d") = false →
        ({ pConv with options := ("d", text) :: pConv.options } : OBConversion).IsOption name =
          pConv.IsOption name := by
      intro name hname
      simp [OBConversion.IsOption, List.lookup, hname]
    have hm := hl "pngwritechemobject" (by decide)
    cases hg : generateCoords env pmol with
    | error e =>
      simp only [WriteMolecule, hg, hm]
    | ok w =>
      simp only [WriteMolecule, hg, hm]
      split_ifs <;>
        simp [paintCalls, depictOptions, OBConversion.IsOption, List.lookup]

/-- C15: a call that does not complete the batch (the record is not the last one
and the maximum is not reached) returns true, makes no call on the painter and
logs no error, leaves the output index as it was, and leaves in the buffer the
former objects (none when the output index is at most 1) followed by the
submitted object. -/
theorem C15_pending_call_frame (env : Env) (self : PNG2Format) (pConv : OBConversion)
    (hl : pConv.last = false) (hn : nomore (accumulate env self pConv).1 = false) :
    (WriteChemObject env self pConv).1 = true ∧
    (WriteChemObject env self pConv).2.1.cairopainter = self.cairopainter ∧
    (WriteChemObject env self pConv).2.1.errorLog = self.errorLog ∧
    (WriteChemObject env self pConv).2.2.outputIndex = pConv.outputIndex ∧
    (WriteChemObject env self pConv).2.1.objects =
      (if pConv.outputIndex ≤ 1 then [] else self.objects) ++
        [env.doOutputOptions pConv.chemObject (accumulate env self pConv).2] := by
  rw [pending_call env self pConv hl hn]
  refine ⟨rfl, accumulate_painter env self pConv, ?_, ?_, ?_⟩
  · by_cases hi : pConv.outputIndex ≤ 1
    · have hN := IsOption_AddOption pConv "N" (by decide)
      have hr := IsOption_AddOption pConv "r" (by decide)
      have hc := IsOption_AddOption pConv "c" (by decide)
      cases hNv : pConv.IsOption "N" <;> cases hrv : pConv.IsOption "r" <;>
        cases hcv : pConv.IsOption "c" <;>
        simp [accumulate, hi, startBatch, hN, hr, hc, hNv, hrv, hcv]
    · simp [accumulate, hi]
  · by_cases hi : pConv.outputIndex ≤ 1
    · simp [accumulate, hi, (startBatch_facts self pConv).2.2, OBConversion.AddOption]
    · simp [accumulate, hi]
  · by_cases hi : pConv.outputIndex ≤ 1
    · simp [accumulate, hi, (startBatch_facts self pConv).1]
    · simp [accumulate, hi]

/-- Witness of C15: the first of several molecules, no maximum. -/
theorem C15_pending_call_frame_witness :
    (convOf [] 1 false (OBBase.mol molA)).last = false ∧
    nomore (accumulate envPlain PNG2Format.init (convOf [] 1 false (OBBase.mol molA))).1
      = false ∧
    (WriteChemObject envPlain PNG2Format.init (convOf [] 1 false (OBBase.mol molA))).1 = true ∧
    (WriteChemObject envPlain PNG2Format.init
      (convOf [] 1 false (OBBase.mol molA))).2.1.cairopainter = PNG2Format.init.cairopainter ∧
    (WriteChemObject envPlain PNG2Format.init
      (convOf [] 1 false (OBBase.mol molA))).2.1.errorLog = PNG2Format.init.errorLog ∧
    (WriteChemObject envPlain PNG2Format.init
      (convOf [] 1 false (OBBase.mol molA))).2.2.outputIndex =
        (convOf [] 1 false (OBBase.mol molA)).outputIndex ∧
    (WriteChemObject envPlain PNG2Format.init (convOf [] 1 false (OBBase.mol molA))).2.1.objects =
      (if (convOf [] 1 false (OBBase.mol molA)).outputIndex ≤ 1 then []
        else PNG2Format.init.objects) ++
        [envPlain.doOutputOptions (convOf [] 1 false (OBBase.mol molA)).chemObject
          (accumulate envPlain PNG2Format.init (convOf [] 1 false (OBBase.mol molA))).2] :=
  ⟨rfl, by with_unfolding_all decide,
    C15_pending_call_frame envPlain PNG2Format.init (convOf [] 1 false (OBBase.mol molA)) rfl
      (by with_unfolding_all decide)⟩

theorem writeAll_ret (env : Env) (size : Nat) (obs : List OBBase) :
    ∀ (n : Int) (self : PNG2Format) (pConv : OBConversion),
      ((writeAll env size obs n self pConv).1 = true ↔
        ∀ b ∈ renderResults env size obs n self pConv, b = true) := by
  induction obs with
  | nil => intro n self pConv; simp [writeAll, renderResults]
  | cons pOb rest ih =>
    intro n self pConv
    simp only [writeAll, renderResults]
    cases hr : (WriteMolecule env self pOb
      { pConv with outputIndex := wrap32 (n + 1),
                   last := decide (toSizeT (wrap32 (n + 1)) = (size : Int)) }).1 with
    | false => simp
    | true =>
      simp only [if_true, List.mem_cons, forall_eq_or_imp, true_and]
      exact ih _ _ _

/-- C20: a call returns true exactly when the maximum was not reached on it and
every `WriteMolecule` it performed returned true; so a call on which the maximum
is reached returns false, also when the record is the last one and every render
succeeds. -/
theorem C20_return_value (env : Env) (self : PNG2Format) (pConv : OBConversion) :
    ((WriteChemObject env self pConv).1 = true ↔
      (nomore (accumulate env self pConv).1 = false ∧
        ∀ b ∈ callRenderResults env self pConv, b = true)) ∧
    (nomore (accumulate env self pConv).1 = true → (WriteChemObject env self pConv).1 = false) := by
  unfold WriteChemObject callRenderResults flush
  generalize accumulate env self pConv = st
  cases hnm : nomore st.1 with
  | true => simp [hnm]
  | false =>
    cases hl : st.2.last with
    | false => simp [hnm, hl]
    | true =>
      simp only [hnm, hl, Bool.or_false, if_true, Bool.not_false, Bool.and_true, true_and,
        Bool.false_eq_true, false_implies, and_true]
      exact writeAll_ret env _ _ _ _ _

/-- Witness of C20: with `N=1` the first record reaches the maximum; it is also
the last record and its render succeeds, and the call returns false. -/
theorem C20_return_value_witness :
    (convOf [("N", "1")] 1 true (OBBase.mol molA)).last = true ∧
    callRenderResults envPlain PNG2Format.init (convOf [("N", "1")] 1 true (OBBase.mol molA))
      = [true] ∧
    nomore (accumulate envPlain PNG2Format.init
      (convOf [("N", "1")] 1 true (OBBase.mol molA))).1 = true ∧
    (WriteChemObject envPlain PNG2Format.init
      (convOf [("N", "1")] 1 true (OBBase.mol molA))).1 = false :=
  ⟨rfl, by with_unfolding_all decide, by with_unfolding_all decide,
    (C20_return_value envPlain PNG2Format.init
      (convOf [("N", "1")] 1 true (OBBase.mol molA))).2 (by with_unfolding_all decide)⟩

/-! ## Reconciliation of the output index -/

theorem WriteMolecule_index (env : Env) (self : PNG2Format) (pOb : OBBase)
    (pConv : OBConversion) :
    (WriteMolecule env self pOb pConv).2.2.outputIndex = pConv.outputIndex ∨
    (WriteMolecule env self pOb pConv).2.2.outputIndex = 1 := by
  cases pOb with
  | other t => left; rfl
  | mol pmol =>
    cases hg : generateCoords env pmol with
    | error e =>
      simp only [WriteMolecule, hg]
      split_ifs
      · right; rfl
      · left; rfl
    | ok w =>
      simp only [WriteMolecule, hg]
      split_ifs
      · right; rfl
      · left; rfl

/-- The output index left by the loop: the index it was given when there is no
object, and otherwise a value from 1 to the number of objects. -/
theorem writeAll_index (env : Env) (size : Nat) (obs : List OBBase) :
    ∀ (n : Int) (self : PNG2Format) (pConv : OBConversion),
      0 ≤ n → n + obs.length < 2147483647 →
      (obs = [] ∧ (writeAll env size obs n self pConv).2.2.outputIndex = pConv.outputIndex) ∨
      (1 ≤ (writeAll env size obs n self pConv).2.2.outputIndex ∧
        (writeAll env size obs n self pConv).2.2.outputIndex ≤ n + obs.length) := by
  induction obs with
  | nil => intro n self pConv _ _; left; exact ⟨rfl, rfl⟩
  | cons pOb rest ih =>
    intro n self pConv h0 hb
    right
    have hlen : ((pOb :: rest).length : Int) = (rest.length : Int) + 1 := by simp
    have hw : wrap32 (n + 1) = n + 1 := wrap32_of_range _ (by omega) (by omega)
    simp only [writeAll, hw]
    have hidx := WriteMolecule_index env self pOb
      { pConv with outputIndex := n + 1,
                   last := decide (toSizeT (n + 1) = (size : Int)) }
    generalize WriteMolecule env self pOb
      { pConv with outputIndex := n + 1,
                   last := decide (toSizeT (n + 1) = (size : Int)) } = r at hidx ⊢
    have hidx' : r.2.2.outputIndex = n + 1 ∨ r.2.2.outputIndex = 1 := hidx
    cases hr : r.1 with
    | false =>
      simp only [Bool.false_eq_true, if_false]
      omega
    | true =>
      simp only [if_true]
      rcases ih (n + 1) r.2.1 r.2.2 (by omega) (by omega) with ⟨_, h2⟩ | ⟨h1, h2⟩
      · rw [h2]; omega
      · exact ⟨h1, by omega⟩

/-- The output index left by the loop when the marker option is set and every
object renders: the number of objects written. -/
theorem writeAll_marked_index (env : Env) (size : Nat) (obs : List OBBase) :
    ∀ (n : Int) (self : PNG2Format) (pConv : OBConversion),
      0 ≤ n → n + obs.length < 2147483648 →
      (pConv.IsOption "pngwritechemobject").isNone = false →
      (∀ pOb ∈ obs, renders env pOb = true) → obs ≠ [] →
      (writeAll env size obs n self pConv).2.2.outputIndex = n + obs.length := by
  induction obs with
  | nil => intro n self pConv _ _ _ _ hne; exact absurd rfl hne
  | cons pOb rest ih =>
    intro n self pConv h0 hb hm hall _
    have hr : renders env pOb = true := hall pOb (List.mem_cons_self _ _)
    have hrest : ∀ q ∈ rest, renders env q = true := fun q hq => hall q (List.mem_cons_of_mem _ hq)
    have hlen : ((pOb :: rest).length : Int) = (rest.length : Int) + 1 := by simp
    have hw : wrap32 (n + 1) = n + 1 := wrap32_of_range _ (by omega) (by omega)
    have hmm : (OBConversion.IsOption
        { pConv with outputIndex := n + 1, last := decide (toSizeT (n + 1) = (size : Int)) }
        "pngwritechemobject").isNone = false := hm
    simp only [writeAll, hw]
    rw [WriteMolecule_marked env self pOb _ hmm hr]
    simp only [if_true]
    cases rest with
    | nil => simp [writeAll]
    | cons q rest' =>
      rw [ih (n + 1) _ _ (by omega) (by omega) hmm hrest (by simp)]
      simp only [List.length_cons]
      push_cast
      ring

theorem WriteChemObject_eq (env : Env) (self : PNG2Format) (pConv : OBConversion) :
    WriteChemObject env self pConv =
      ((beforeReconcile env self pConv).1 && !nomore (accumulate env self pConv).1,
        (beforeReconcile env self pConv).2.1,
        if !(beforeReconcile env self pConv).1 || nomore (accumulate env self pConv).1 then
          { (beforeReconcile env self pConv).2.2 with
            outputIndex := wrap32 ((beforeReconcile env self pConv).2.2.outputIndex + 1) }
        else (beforeReconcile env self pConv).2.2) := by
  unfold WriteChemObject beforeReconcile
  rfl

/-- Line 155 stores the object before line 162 reads the number of objects:
the buffer is never empty when the table is dimensioned. -/
theorem accumulate_nonempty (env : Env) (self : PNG2Format) (pConv : OBConversion) :
    (accumulate env self pConv).1.objects ≠ [] := by
  unfold accumulate
  simp

/-- C12: the output index left by a call is the index reached at line 201 plus
one when the call returns false, and that index itself when the call returns
true; on an early stop whose `m` stored structures all render, with the marker
option set, the call returns false and leaves the index `m + 1`. -/
theorem C12_index_reconciliation (env : Env) (self : PNG2Format) (pConv : OBConversion)
    (hb : (accumulate env self pConv).1.objects.length + 1 < 2 ^ 31) :
    ((WriteChemObject env self pConv).1 = false ↔
      (WriteChemObject env self pConv).2.2.outputIndex =
        (beforeReconcile env self pConv).2.2.outputIndex + 1) ∧
    ((WriteChemObject env self pConv).1 = true ↔
      (WriteChemObject env self pConv).2.2.outputIndex =
        (beforeReconcile env self pConv).2.2.outputIndex) ∧
    (nomore (accumulate env self pConv).1 = true →
      ((accumulate env self pConv).2.IsOption "pngwritechemobject").isSome = true →
      (∀ pOb ∈ (accumulate env self pConv).1.objects, renders env pOb = true) →
      (WriteChemObject env self pConv).1 = false ∧
      (WriteChemObject env self pConv).2.2.outputIndex =
        ((accumulate env self pConv).1.objects.length : Int) + 1) := by
  have hb' : ((accumulate env self pConv).1.objects.length : Int) + 1 < 2147483648 := by
    omega
  have hne := accumulate_nonempty env self pConv
  have hW1 : (WriteChemObject env self pConv).1 =
      ((beforeReconcile env self pConv).1 && !nomore (accumulate env self pConv).1) := by
    rw [WriteChemObject_eq]
  have hWidx : (WriteChemObject env self pConv).2.2.outputIndex =
      if (!(beforeReconcile env self pConv).1 || nomore (accumulate env self pConv).1) = true
      then wrap32 ((beforeReconcile env self pConv).2.2.outputIndex + 1)
      else (beforeReconcile env self pConv).2.2.outputIndex := by
    rw [WriteChemObject_eq]
    split_ifs <;> rfl
  have hflushidx : ((accumulate env self pConv).2.last || nomore (accumulate env self pConv).1)
      = true →
      1 ≤ (beforeReconcile env self pConv).2.2.outputIndex ∧
      (beforeReconcile env self pConv).2.2.outputIndex ≤
        (accumulate env self pConv).1.objects.length := by
    intro hcond
    have hidx := writeAll_index env (accumulate env self pConv).1.objects.length
      (accumulate env self pConv).1.objects 0
      { (accumulate env self pConv).1 with
        nrows := (tableAtFlush (accumulate env self pConv).1).1,
        ncols := (tableAtFlush (accumulate env self pConv).1).2 }
      (accumulate env self pConv).2 (le_refl 0) (by omega)
    unfold beforeReconcile flush
    simp only [hcond, if_true]
    simp only [] at hidx
    rcases hidx with ⟨h1, _⟩ | ⟨h1, h2⟩
    · exact absurd h1 hne
    · exact ⟨h1, by omega⟩
  have hpend : ((accumulate env self pConv).2.last || nomore (accumulate env self pConv).1)
      = false → (beforeReconcile env self pConv).1 = true := by
    intro hcond
    unfold beforeReconcile
    simp [hcond]
  have hearly : nomore (accumulate env self pConv).1 = true →
      ((accumulate env self pConv).2.IsOption "pngwritechemobject").isSome = true →
      (∀ pOb ∈ (accumulate env self pConv).1.objects, renders env pOb = true) →
      (beforeReconcile env self pConv).2.2.outputIndex =
        ((accumulate env self pConv).1.objects.length : Int) := by
    intro hnm hm hall
    have hm' : ((accumulate env self pConv).2.IsOption "pngwritechemobject").isNone = false := by
      cases hopt : (accumulate env self pConv).2.IsOption "pngwritechemobject" with
      | none => rw [hopt] at hm; cases hm
      | some t => rfl
    have hidx := writeAll_marked_index env (accumulate env self pConv).1.objects.length
      (accumulate env self pConv).1.objects 0
      { (accumulate env self pConv).1 with
        nrows := (tableAtFlush (accumulate env self pConv).1).1,
        ncols := (tableAtFlush (accumulate env self pConv).1).2 }
      (accumulate env self pConv).2 (le_refl 0) (by omega) hm' hall hne
    unfold beforeReconcile flush
    simp only [hnm, Bool.or_true, if_true]
    simp only [] at hidx
    rw [hidx]
    ring
  generalize WriteChemObject env self pConv = W at hW1 hWidx ⊢
  generalize beforeReconcile env self pConv = B at hW1 hWidx hflushidx hpend hearly ⊢
  generalize hnm : nomore (accumulate env self pConv).1 = nm at hW1 hWidx hflushidx hpend hearly ⊢
  generalize (accumulate env self pConv).2.last = lst at hflushidx hpend
  generalize ((accumulate env self pConv).1.objects.length : Int) = len at hflushidx hearly hb' ⊢
  cases hB1 : B.1 <;> cases nm <;> cases lst <;>
    simp only [hB1, Bool.not_true, Bool.not_false, Bool.and_true, Bool.and_false,
      Bool.false_and, Bool.true_and, Bool.or_true, Bool.or_false, Bool.true_or, Bool.false_or,
      if_true, if_false, Bool.false_eq_true, true_implies, false_implies, forall_const]
      at hW1 hWidx hflushidx hpend hearly ⊢
  all_goals first
    | (have hw : wrap32 (B.2.2.outputIndex + 1) = B.2.2.outputIndex + 1 :=
        wrap32_of_range _ (by omega) (by omega)
       rw [hw] at hWidx
       rw [hW1, hWidx]
       refine ⟨by simp, by simp, ?_⟩
       first
         | (intro hm hall; rw [hearly hm hall]; exact ⟨rfl, rfl⟩)
         | simp)
    | (rw [hW1, hWidx]; simp)

/-- Witness of C12: with a maximum of 2 in effect, the second molecule reaches
it; the call returns false and leaves the index 3. -/
theorem C12_index_reconciliation_witness :
    nomore (accumulate envPlain { formatWith 1 0 0 with nmax := 2 }
      (convSecond false (OBBase.mol molA))).1 = true ∧
    (WriteChemObject envPlain { formatWith 1 0 0 with nmax := 2 }
      (convSecond false (OBBase.mol molA))).1 = false ∧
    (WriteChemObject envPlain { formatWith 1 0 0 with nmax := 2 }
      (convSecond false (OBBase.mol molA))).2.2.outputIndex =
      ((accumulate envPlain { formatWith 1 0 0 with nmax := 2 }
        (convSecond false (OBBase.mol molA))).1.objects.length : Int) + 1 :=
  ⟨by with_unfolding_all decide,
    (C12_index_reconciliation envPlain { formatWith 1 0 0 with nmax := 2 }
      (convSecond false (OBBase.mol molA)) (by decide)).2.2
      (by with_unfolding_all decide) (by decide) (by decide)⟩

/-! ## Image dimensions -/

theorem objectCalls_dim (env : Env) (nrows ncols : Int) (pConv : OBConversion) (pOb : OBBase) :
    (pConv.outputIndex ≠ 1 → ∀ c ∈ objectCalls env nrows ncols pConv pOb, isDimCall c = false) ∧
    (∀ r c, PainterCall.SetTableSize r c ∈ objectCalls env nrows ncols pConv pOb →
      r = nrows ∧ c = ncols) ∧
    (pConv.outputIndex = 1 → renders env pOb = true →
      PainterCall.SetTableSize nrows ncols ∈ objectCalls env nrows ncols pConv pOb) := by
  cases pOb with
  | other t => simp [objectCalls, renders]
  | mol pmol =>
    cases hg : generateCoords env pmol with
    | error e => simp [objectCalls, renders, hg]
    | ok w =>
      simp only [objectCalls, hg, paintCalls]
      refine ⟨?_, ?_, ?_⟩
      · intro hne c hc
        have hnil : (paintCalls nrows ncols pmol w env pConv).filter isDimCall = [] := by
          simp only [paintCalls]
          cases hl : pConv.last <;> simp [List.filter, isDimCall, hne]
        have hall := List.filter_eq_nil_iff.mp hnil c (by simpa only [paintCalls] using hc)
        simpa using hall
      · intro r c hc
        by_cases h1 : pConv.outputIndex = 1 <;> cases hl : pConv.last <;>
          simp [h1, hl] at hc <;> exact hc
      · intro h1 _
        simp [h1]

theorem batchCalls_no_dim (env : Env) (nrows ncols : Int) (pConv : OBConversion) (size : Nat)
    (obs : List OBBase) :
    ∀ n : Int, 1 ≤ n → ∀ c ∈ batchCalls env nrows ncols pConv size obs n, isDimCall c = false := by
  induction obs with
  | nil => intro n _ c hc; simp [batchCalls] at hc
  | cons pOb rest ih =>
    intro n hn c hc
    simp only [batchCalls] at hc
    split_ifs at hc with hr
    · rw [List.mem_append] at hc
      rcases hc with hc | hc
      · exact (objectCalls_dim env nrows ncols _ pOb).1
          (by show n + 1 ≠ 1; omega) c hc
      · exact ih (n + 1) (by omega) c hc
    · simp at hc

/-- C16: in a call that completes a batch with the marker option set, the
painter calls are those of the render at output index 1 followed by those of the
renders at the indices above 1; `SetWidth`, `SetHeight` and `SetTableSize` occur
only in the former, `SetTableSize` with the grid resolved at flush, and in none
of the latter. -/
theorem C16_dimensions_set_by_first_only (env : Env) (self : PNG2Format)
    (pConv : OBConversion)
    (hcomp : pConv.last = true ∨ nomore (accumulate env self pConv).1 = true)
    (hm : ((accumulate env self pConv).2.IsOption "pngwritechemobject").isSome = true)
    (hb : (accumulate env self pConv).1.objects.length < 2 ^ 31) :
    ∃ (b : OBBase) (rest : List OBBase) (first later : List PainterCall),
      (accumulate env self pConv).1.objects = b :: rest ∧
      (WriteChemObject env self pConv).2.1.cairopainter = self.cairopainter ++ (first ++ later) ∧
      first = (if renders env b then
        objectCalls env (tableAtFlush (accumulate env self pConv).1).1
          (tableAtFlush (accumulate env self pConv).1).2
          { (accumulate env self pConv).2 with
            outputIndex := 1,
            last := decide ((1 : Int) = ((accumulate env self pConv).1.objects.length : Int)) } b
        else []) ∧
      later = (if renders env b then
        batchCalls env (tableAtFlush (accumulate env self pConv).1).1
          (tableAtFlush (accumulate env self pConv).1).2 (accumulate env self pConv).2
          (accumulate env self pConv).1.objects.length rest 1
        else []) ∧
      (∀ r c, PainterCall.SetTableSize r c ∈ first →
        (r, c) = tableAtFlush (accumulate env self pConv).1) ∧
      (renders env b = true →
        PainterCall.SetTableSize (tableAtFlush (accumulate env self pConv).1).1
          (tableAtFlush (accumulate env self pConv).1).2 ∈ first) ∧
      (∀ c ∈ later, isDimCall c = false) := by
  obtain ⟨_, h2⟩ := completing_call env self pConv hcomp hm hb
  have hne := accumulate_nonempty env self pConv
  generalize accumulate env self pConv = st at h2 hne ⊢
  generalize tableAtFlush st.1 = g at h2 ⊢
  cases hobj : st.1.objects with
  | nil => exact absurd hobj hne
  | cons b rest =>
    rw [hobj] at h2
    refine ⟨b, rest, _, _, rfl, ?_, rfl, rfl, ?_, ?_, ?_⟩
    · rw [h2]
      simp only [batchCalls, zero_add, List.length_cons]
      split_ifs <;> simp
    · intro r c hc
      split_ifs at hc with hr
      · obtain ⟨e1, e2⟩ := (objectCalls_dim env g.1 g.2 _ b).2.1 r c hc
        rw [e1, e2]
      · simp at hc
    · intro hr
      rw [if_pos hr]
      exact (objectCalls_dim env g.1 g.2 _ b).2.2 rfl hr
    · intro c hc
      split_ifs at hc with hr
      · exact batchCalls_no_dim env g.1 g.2 st.2 _ rest 1 (le_refl 1) c hc
      · simp at hc

/-- Witness of C16: a second and last molecule completes a batch of two. -/
theorem C16_dimensions_set_by_first_only_witness :
    (convSecond true (OBBase.mol molA)).last = true ∧
    ((accumulate envPlain (formatWith 1 0 0)
      (convSecond true (OBBase.mol molA))).2.IsOption "pngwritechemobject").isSome = true ∧
    ∃ (b : OBBase) (rest : List OBBase) (first later : List PainterCall),
      (accumulate envPlain (formatWith 1 0 0) (convSecond true (OBBase.mol molA))).1.objects
        = b :: rest ∧
      (WriteChemObject envPlain (formatWith 1 0 0)
        (convSecond true (OBBase.mol molA))).2.1.cairopainter =
          (formatWith 1 0 0).cairopainter ++ (first ++ later) ∧
      first = (if renders envPlain b then
        objectCalls envPlain
          (tableAtFlush (accumulate envPlain (formatWith 1 0 0)
            (convSecond true (OBBase.mol molA))).1).1
          (tableAtFlush (accumulate envPlain (formatWith 1 0 0)
            (convSecond true (OBBase.mol molA))).1).2
          { (accumulate envPlain (formatWith 1 0 0) (convSecond true (OBBase.mol molA))).2 with
            outputIndex := 1,
            last := decide ((1 : Int) = ((accumulate envPlain (formatWith 1 0 0)
              (convSecond true (OBBase.mol molA))).1.objects.length : Int)) } b
        else []) ∧
      later = (if renders envPlain b then
        batchCalls envPlain
          (tableAtFlush (accumulate envPlain (formatWith 1 0 0)
            (convSecond true (OBBase.mol molA))).1).1
          (tableAtFlush (accumulate envPlain (formatWith 1 0 0)
            (convSecond true (OBBase.mol molA))).1).2
          (accumulate envPlain (formatWith 1 0 0) (convSecond true (OBBase.mol molA))).2
          (accumulate envPlain (formatWith 1 0 0)
            (convSecond true (OBBase.mol molA))).1.objects.length rest 1
        else []) ∧
      (∀ r c, PainterCall.SetTableSize r c ∈ first →
        (r, c) = tableAtFlush (accumulate envPlain (formatWith 1 0 0)
          (convSecond true (OBBase.mol molA))).1) ∧
      (renders envPlain b = true →
        PainterCall.SetTableSize
          (tableAtFlush (accumulate envPlain (formatWith 1 0 0)
            (convSecond true (OBBase.mol molA))).1).1
          (tableAtFlush (accumulate envPlain (formatWith 1 0 0)
            (convSecond true (OBBase.mol molA))).1).2 ∈ first) ∧
      (∀ c ∈ later, isDimCall c = false) :=
  ⟨rfl, by decide,
    C16_dimensions_set_by_first_only envPlain (formatWith 1 0 0)
      (convSecond true (OBBase.mol molA)) (Or.inl rfl) (by decide) (by decide)⟩

/-! ## Objects that are not molecules -/

theorem renders_of_not_mol (env : Env) (pOb : OBBase) (h : isMol pOb = false) :
    renders env pOb = false := by
  cases pOb with
  | mol m => simp [isMol] at h
  | other t => rfl

theorem accumulate_objects (env : Env) (self : PNG2Format) (pConv : OBConversion) :
    ∃ pre : List OBBase,
      (accumulate env self pConv).1.objects =
        pre ++ [env.doOutputOptions pConv.chemObject (accumulate env self pConv).2] := by
  unfold accumulate
  exact ⟨_, rfl⟩

theorem completing_resets (env : Env) (self : PNG2Format) (pConv : OBConversion)
    (h : pConv.last = true ∨ nomore (accumulate env self pConv).1 = true) :
    (WriteChemObject env self pConv).2.1.objects = [] ∧
    (WriteChemObject env self pConv).2.1.nrows = 0 ∧
    (WriteChemObject env self pConv).2.1.ncols = 0 ∧
    (WriteChemObject env self pConv).2.1.nmax = 0 := by
  have hcond : ((accumulate env self pConv).2.last || nomore (accumulate env self pConv).1)
      = true := by
    rw [accumulate_last]
    rcases h with h | h <;> simp [h]
  unfold WriteChemObject
  simp only [hcond, if_true]
  simp [flush]

/-- C13, as the claim states it, fails: an object that is not a molecule,
submitted as a first record that is not the last one, with no maximum, is
stored and the call returns true. -/
theorem C13_counterexample :
    isMol (convOf [] 1 false (OBBase.other "x")).chemObject = false ∧
    (WriteChemObject envPlain PNG2Format.init (convOf [] 1 false (OBBase.other "x"))).1 = true ∧
    (WriteChemObject envPlain PNG2Format.init
      (convOf [] 1 false (OBBase.other "x"))).2.1.objects = [OBBase.other "x"] := by
  with_unfolding_all decide

/-- C13, amended: when the submitted object is not a molecule, a call that
completes a batch started through `WriteChemObject` (marker option set) returns
false, empties the buffer, resets rows, cols and max, and makes no `WriteImage`;
a call that does not complete the batch returns true and keeps the object in the
buffer. -/
theorem C13_wrong_kind_rejected_at_flush (env : Env) (self : PNG2Format)
    (pConv : OBConversion)
    (hkind : ∀ pOb c, isMol (env.doOutputOptions pOb c) = isMol pOb)
    (hob : isMol pConv.chemObject = false)
    (hb : (accumulate env self pConv).1.objects.length < 2 ^ 31) :
    ((pConv.last = true ∨ nomore (accumulate env self pConv).1 = true) →
      ((accumulate env self pConv).2.IsOption "pngwritechemobject").isSome = true →
      (WriteChemObject env self pConv).1 = false ∧
      (WriteChemObject env self pConv).2.1.objects = [] ∧
      (WriteChemObject env self pConv).2.1.nrows = 0 ∧
      (WriteChemObject env self pConv).2.1.ncols = 0 ∧
      (WriteChemObject env self pConv).2.1.nmax = 0 ∧
      ∃ calls : List PainterCall,
        (WriteChemObject env self pConv).2.1.cairopainter = self.cairopainter ++ calls ∧
        PainterCall.WriteImage ∉ calls) ∧
    (pConv.last = false → nomore (accumulate env self pConv).1 = false →
      (WriteChemObject env self pConv).1 = true ∧
      env.doOutputOptions pConv.chemObject (accumulate env self pConv).2 ∈
        (WriteChemObject env self pConv).2.1.objects) := by
  obtain ⟨pre, hpre⟩ := accumulate_objects env self pConv
  have hx : renders env (env.doOutputOptions pConv.chemObject (accumulate env self pConv).2)
      = false := by
    apply renders_of_not_mol
    rw [hkind, hob]
  constructor
  · intro hcomp hm
    obtain ⟨h1, h2⟩ := completing_call env self pConv hcomp hm hb
    obtain ⟨r1, r2, r3, r4⟩ := completing_resets env self pConv hcomp
    have hget : (accumulate env self pConv).1.objects.get? pre.length =
        some (env.doOutputOptions pConv.chemObject (accumulate env self pConv).2) := by
      rw [hpre]
      simp
    obtain ⟨f1, _, _⟩ := batchCalls_fail env (tableAtFlush (accumulate env self pConv).1).1
      (tableAtFlush (accumulate env self pConv).1).2 (accumulate env self pConv).2
      (accumulate env self pConv).1.objects.length (accumulate env self pConv).1.objects 0
      pre.length _ hget hx (by omega)
    refine ⟨?_, r1, r2, r3, r4, _, h2, f1⟩
    rw [h1]
    have hall : (accumulate env self pConv).1.objects.all (renders env) = false := by
      rw [List.all_eq_false]
      refine ⟨_, List.get?_mem hget, ?_⟩
      simp [hx]
    rw [hall]
    rfl
  · intro hl hn
    rw [pending_call env self pConv hl hn]
    refine ⟨rfl, ?_⟩
    show _ ∈ (accumulate env self pConv).1.objects
    rw [hpre]
    simp

/-- Witness of C13: an object that is not a molecule completes a batch of two as
the last record. -/
theorem C13_wrong_kind_rejected_at_flush_witness :
    isMol (convSecond true (OBBase.other "x")).chemObject = false ∧
    (convSecond true (OBBase.other "x")).last = true ∧
    (WriteChemObject envPlain (formatWith 1 0 0) (convSecond true (OBBase.other "x"))).1
      = false ∧
    (WriteChemObject envPlain (formatWith 1 0 0)
      (convSecond true (OBBase.other "x"))).2.1.objects = [] ∧
    (WriteChemObject envPlain (formatWith 1 0 0)
      (convSecond true (OBBase.other "x"))).2.1.nrows = 0 ∧
    (WriteChemObject envPlain (formatWith 1 0 0)
      (convSecond true (OBBase.other "x"))).2.1.ncols = 0 ∧
    (WriteChemObject envPlain (formatWith 1 0 0)
      (convSecond true (OBBase.other "x"))).2.1.nmax = 0 ∧
    ∃ calls : List PainterCall,
      (WriteChemObject envPlain (formatWith 1 0 0)
        (convSecond true (OBBase.other "x"))).2.1.cairopainter =
          (formatWith 1 0 0).cairopainter ++ calls ∧
      PainterCall.WriteImage ∉ calls :=
  ⟨rfl, rfl,
    (C13_wrong_kind_rejected_at_flush envPlain (formatWith 1 0 0)
      (convSecond true (OBBase.other "x")) (fun _ _ => rfl) rfl (by decide)).1
      (Or.inl rfl) (by decide)⟩

/-! ## The maximum is never overshot -/

theorem wrap32_range (x : Int) : -2147483648 ≤ wrap32 x ∧ wrap32 x < 2147483648 := by
  unfold wrap32
  omega

theorem atoi_range (s : String) : -2147483648 ≤ atoi s ∧ atoi s < 2147483648 := by
  unfold atoi
  split
  · omega
  · split_ifs <;> exact wrap32_range _

theorem capOf_range (options : List (String × String)) :
    -2147483648 ≤ capOf options ∧ capOf options < 2147483648 := by
  have hN := IsOption_AddOption (convOf options 1 false (OBBase.other "")) "N" (by decide)
  have hr := IsOption_AddOption (convOf options 1 false (OBBase.other "")) "r" (by decide)
  have hc := IsOption_AddOption (convOf options 1 false (OBBase.other "")) "c" (by decide)
  cases hNv : (convOf options 1 false (OBBase.other "")).IsOption "N" <;>
    cases hrv : (convOf options 1 false (OBBase.other "")).IsOption "r" <;>
    cases hcv : (convOf options 1 false (OBBase.other "")).IsOption "c" <;>
    simp only [capOf, startBatch, hN, hr, hc, hNv, hrv, hcv, PNG2Format.init, Option.isSome,
      Bool.and_self, Bool.and_false, Bool.false_and, Bool.false_eq_true, if_false, if_true] <;>
    first
      | exact atoi_range _
      | exact wrap32_range _
      | omega

/-- The invariant of the buffer: `_nmax` is an `int`, and it is not positive or
exceeds the number of stored objects. -/
theorem step_invariant (env : Env) (self : PNG2Format) (pConv : OBConversion)
    (hr : -2147483648 ≤ self.nmax ∧ self.nmax < 2147483648)
    (hi : self.nmax ≤ 0 ∨ (self.objects.length : Int) < self.nmax) :
    (-2147483648 ≤ (WriteChemObject env self pConv).2.1.nmax ∧
      (WriteChemObject env self pConv).2.1.nmax < 2147483648) ∧
    ((WriteChemObject env self pConv).2.1.nmax ≤ 0 ∨
      ((WriteChemObject env self pConv).2.1.objects.length : Int) <
        (WriteChemObject env self pConv).2.1.nmax) ∧
    (0 < (accumulate env self pConv).1.nmax →
      ((accumulate env self pConv).1.objects.length : Int) ≤ (accumulate env self pConv).1.nmax) := by
  have hacc : (-2147483648 ≤ (accumulate env self pConv).1.nmax ∧
      (accumulate env self pConv).1.nmax < 2147483648) ∧
      ((accumulate env self pConv).1.nmax ≤ 0 ∨
        ((accumulate env self pConv).1.objects.length : Int) ≤
          (accumulate env self pConv).1.nmax) := by
    by_cases hidx : pConv.outputIndex ≤ 1
    · obtain ⟨a1, a2, _⟩ := accumulate_first env self pConv hidx
      have hcr := capOf_range pConv.options
      rw [a1, a2]
      refine ⟨hcr, ?_⟩
      simp only [List.length_singleton, Nat.cast_one]
      omega
    · rw [accumulate_later env self pConv (by omega)]
      refine ⟨hr, ?_⟩
      simp only [List.length_append, List.length_singleton]
      push_cast
      omega
  refine ⟨?_, ?_, ?_⟩
  · cases hcond : (pConv.last || nomore (accumulate env self pConv).1) with
    | true =>
      have hc : pConv.last = true ∨ nomore (accumulate env self pConv).1 = true := by
        simpa using hcond
      rw [(completing_resets env self pConv hc).2.2.2]
      omega
    | false =>
      have hc : pConv.last = false ∧ nomore (accumulate env self pConv).1 = false := by
        simpa using hcond
      rw [pending_call env self pConv hc.1 hc.2]
      exact hacc.1
  · cases hcond : (pConv.last || nomore (accumulate env self pConv).1) with
    | true =>
      have hc : pConv.last = true ∨ nomore (accumulate env self pConv).1 = true := by
        simpa using hcond
      rw [(completing_resets env self pConv hc).2.2.2]
      left
      exact le_refl 0
    | false =>
      have hc : pConv.last = false ∧ nomore (accumulate env self pConv).1 = false := by
        simpa using hcond
      rw [pending_call env self pConv hc.1 hc.2]
      have hn := hc.2
      unfold nomore at hn
      rcases hacc.2 with h0 | h0
      · left; exact h0
      · by_cases hpos : (accumulate env self pConv).1.nmax ≤ 0
        · left; exact hpos
        · right
          have hs : toSizeT (accumulate env self pConv).1.nmax =
              (accumulate env self pConv).1.nmax :=
            toSizeT_of_nonneg _ (by omega) hacc.1.2
          rw [hs] at hn
          have hne : (accumulate env self pConv).1.nmax ≠ 0 := by omega
          simp only [hne, ne_eq, not_false_eq_true, decide_True, Bool.true_and,
            decide_eq_false_iff_not] at hn
          show ((accumulate env self pConv).1.objects.length : Int) <
            (accumulate env self pConv).1.nmax
          omega
  · intro hpos
    rcases hacc.2 with h0 | h0
    · omega
    · exact h0

theorem run_invariant (env : Env) (convs : List OBConversion) :
    ∀ self : PNG2Format,
      (-2147483648 ≤ self.nmax ∧ self.nmax < 2147483648) →
      (self.nmax ≤ 0 ∨ (self.objects.length : Int) < self.nmax) →
      (-2147483648 ≤ (run env self convs).nmax ∧ (run env self convs).nmax < 2147483648) ∧
      ((run env self convs).nmax ≤ 0 ∨
        ((run env self convs).objects.length : Int) < (run env self convs).nmax) := by
  induction convs with
  | nil => intro self hr hi; exact ⟨hr, hi⟩
  | cons pConv rest ih =>
    intro self hr hi
    obtain ⟨s1, s2, _⟩ := step_invariant env self pConv hr hi
    exact ih _ s1 s2

/-- C19: after any sequence of calls of `WriteChemObject` from the initial
format, whatever the controller states and the collaborators, `_nmax` is not
positive or exceeds the number of stored objects; hence, in whatever call comes
next, the objects stored when the batch may be flushed are at most `_nmax` when
`_nmax` is positive. -/
theorem C19_cap_never_overshot (env : Env) (convs : List OBConversion) :
    ((run env PNG2Format.init convs).nmax ≤ 0 ∨
      ((run env PNG2Format.init convs).objects.length : Int) <
        (run env PNG2Format.init convs).nmax) ∧
    ∀ pConv : OBConversion,
      0 < (accumulate env (run env PNG2Format.init convs) pConv).1.nmax →
      ((accumulate env (run env PNG2Format.init convs) pConv).1.objects.length : Int) ≤
        (accumulate env (run env PNG2Format.init convs) pConv).1.nmax := by
  have hinit : (-2147483648 ≤ PNG2Format.init.nmax ∧ PNG2Format.init.nmax < 2147483648) ∧
      (PNG2Format.init.nmax ≤ 0 ∨
        (PNG2Format.init.objects.length : Int) < PNG2Format.init.nmax) := by
    simp [PNG2Format.init]
  obtain ⟨r1, r2⟩ := run_invariant env convs PNG2Format.init hinit.1 hinit.2
  exact ⟨r2, fun pConv => (step_invariant env _ pConv r1 r2).2.2⟩

/-- Witness of C19: one molecule stored under `N=2`; the next call stores the
second one and the buffer holds 2 objects, the maximum. -/
theorem C19_cap_never_overshot_witness :
    0 < (accumulate envPlain
      (run envPlain PNG2Format.init [convOf [("N", "2")] 1 false (OBBase.mol molA)])
      (convSecond false (OBBase.mol molA))).1.nmax ∧
    ((accumulate envPlain
      (run envPlain PNG2Format.init [convOf [("N", "2")] 1 false (OBBase.mol molA)])
      (convSecond false (OBBase.mol molA))).1.objects.length : Int) ≤
      (accumulate envPlain
        (run envPlain PNG2Format.init [convOf [("N", "2")] 1 false (OBBase.mol molA)])
        (convSecond false (OBBase.mol molA))).1.nmax :=
  ⟨by with_unfolding_all decide,
    (C19_cap_never_overshot envPlain [convOf [("N", "2")] 1 false (OBBase.mol molA)]).2
      (convSecond false (OBBase.mol molA)) (by with_unfolding_all decide)⟩

/-! ## Rows and columns at the start of a batch -/

/-- C11 fails on the code: after a direct call of `WriteMolecule`, which leaves
`_nrows = _ncols = 1`, a call of `WriteChemObject` at output index 1 with neither
`r` nor `c` given clears the buffer and `_nmax` but keeps `_nrows = _ncols = 1`;
a batch of two molecules is then drawn in a table of 1 by 1. -/
theorem C11_rows_cols_not_reset :
    formatAfterDirectWrite.nrows = 1 ∧ formatAfterDirectWrite.ncols = 1 ∧
    formatAfterDirectWrite.nmax = 1 ∧
    (convOf [] 1 false (OBBase.mol molA)).IsOption "r" = none ∧
    (convOf [] 1 false (OBBase.mol molA)).IsOption "c" = none ∧
    (accumulate envPlain formatAfterDirectWrite
      (convOf [] 1 false (OBBase.mol molA))).1.objects = [OBBase.mol molA] ∧
    (accumulate envPlain formatAfterDirectWrite
      (convOf [] 1 false (OBBase.mol molA))).1.nmax = 0 ∧
    (accumulate envPlain formatAfterDirectWrite
      (convOf [] 1 false (OBBase.mol molA))).1.nrows = 1 ∧
    (accumulate envPlain formatAfterDirectWrite
      (convOf [] 1 false (OBBase.mol molA))).1.ncols = 1 ∧
    (accumulate envPlain PNG2Format.init
      (convOf [] 1 false (OBBase.mol molA))).1.nrows = 0 ∧
    (accumulate envPlain PNG2Format.init
      (convOf [] 1 false (OBBase.mol molA))).1.ncols = 0 ∧
    PainterCall.SetTableSize 1 1 ∈
      ((feed envPlain formatAfterDirectWrite []
        [{ index := 1, last := false, pOb := OBBase.mol molA },
          { index := 2, last := true, pOb := OBBase.mol molA }]).2.1.cairopainter.drop
        formatAfterDirectWrite.cairopainter.length) := by
  with_unfolding_all decide

end PNG2
